import Mathlib

/-!
Verification of the MINDREADER probability-estimation and token-selection
engine, as implemented in `js/api.js`, `js/mode1.js` (and its revision in
the unnamed mode-1 file), `js/mode2.js` and `js/config.js`.

The JavaScript is embedded shallowly:

* JS numbers that the claims treat exactly (log-probabilities, linear
  probabilities, the 0.6/0.4 blend weights, thresholds) are modelled as `ℚ`.
* `Math.exp(logprob)` appears in the source only as a strictly increasing
  map from a log-probability to the linear probability that is then
  compared/maximised.  Where an order-respecting use occurs (the mode-1
  sort) we compare log-probabilities directly; where the linear value
  itself is the datum (mode-2 logprob scan) the embedding carries the
  linear probability field `prob` directly.
* `fetch`/network calls are modelled by an `Except` parameter supplying the
  response, `.error` standing for a thrown/rejected request.
* `Math.random()`-driven choices are modelled by explicit oracle
  parameters (`ℕ` values reduced modulo the needed bound), so theorems
  quantify over every possible random outcome.
* The mutable module-level `gameState` of `mode2.js` is passed explicitly
  as a `GameState` value.
-/

/-! ## JS string primitives -/

/-- Characters removed by the JS `String.prototype.trim` at either end
(whitespace). -/
def trimChars (l : List Char) : List Char :=
  ((l.dropWhile Char.isWhitespace).reverse.dropWhile Char.isWhitespace).reverse

/-- Embedding of JS `s.trim()`. -/
def jsTrim (s : String) : String :=
  ⟨trimChars s.data⟩

/-- Embedding of JS `s.toLowerCase()`: lower-case every character (the same
character map used by `String.toLower`, written structurally over the
character list). -/
def jsToLower (s : String) : String :=
  ⟨s.data.map Char.toLower⟩

/-- Embedding of JS `l.includes(pat)` on character lists: `pat` occurs as a
contiguous substring of `l`. -/
def charsIncludes : List Char → List Char → Bool
  | l@(_ :: rest), pat => pat.isPrefixOf l || charsIncludes rest pat
  | [], pat => pat.isEmpty

/-- Embedding of JS `s.includes(pat)`. -/
def strIncludes (s pat : String) : Bool :=
  charsIncludes s.data pat.data

/-- Splitting on whitespace runs with the empty pieces removed: the
accumulator carries the (reversed) characters of the word in progress.
`wsWordsAux l []` equals `⟨l⟩.split(/\s+/).filter(word => word.length > 0)`
of JS: a maximal run of whitespace ends the current word, and words of
length zero are discarded. -/
def wsWordsAux : List Char → List Char → List String
  | [], acc => if acc.isEmpty then [] else [⟨acc.reverse⟩]
  | c :: rest, acc =>
    if c.isWhitespace then
      (if acc.isEmpty then [] else [⟨acc.reverse⟩]) ++ wsWordsAux rest []
    else wsWordsAux rest (c :: acc)

/-- Embedding of `countWords` from `js/config.js`:
`text.trim().split(/\s+/).filter(word => word.length > 0).length`. -/
def countWords (text : String) : ℕ :=
  (wsWordsAux (jsTrim text).data []).length

/-! ## Configuration constants (`js/config.js`) -/

/-- `CONFIG.mode2.maxNudgeWords`. -/
def maxNudgeWords : ℕ := 6

/-- `CONFIG.mode2.maxTurns`. -/
def mode2MaxTurns : ℕ := 10

/-- `CONFIG.mode1.tokenSelection.midMin`. -/
def midMin : ℕ := 2
/-- `CONFIG.mode1.tokenSelection.midMax`. -/
def midMax : ℕ := 5
/-- `CONFIG.mode1.tokenSelection.lowMin`. -/
def lowMin : ℕ := 6
/-- `CONFIG.mode1.tokenSelection.lowMax`. -/
def lowMax : ℕ := 15
/-- `CONFIG.mode1.tokenSelection.veryLowMin`. -/
def veryLowMin : ℕ := 20
/-- `CONFIG.mode1.tokenSelection.veryLowMax`. -/
def veryLowMax : ℕ := 50

/-! ## Token Distribution Normalizer (`getNextTokenDistribution`, js/api.js) -/

/-- One raw `top_logprobs` entry of the model response: `{token, logprob}`. -/
structure RawLogprobItem where
  token : String
  logprob : ℚ
deriving DecidableEq, Repr

/-- An element of the intermediate `tokenDistribution` array built by
`topLogprobs.map((item, index) => ({token, logprob, probability, rank}))`.
The `probability` field (`Math.exp(item.logprob)`) is determined by
`logprob` and is only ever used for order comparisons, so it is not
carried separately. -/
structure PreDedupEntry where
  token : String
  logprob : ℚ
  rank : ℕ
deriving DecidableEq, Repr

/-- An element of the `deduplicatedDistribution` array: the user-facing
candidate record. -/
structure TokenCandidate where
  token : String
  originalToken : String
  logprob : ℚ
  rank : ℕ
  isChosen : Bool
deriving DecidableEq, Repr

/-- Embedding of `topLogprobs.map((item, index) => ...)`: attach
`rank = index + 1`, indices counted from `i`. -/
def toPreDedup (i : ℕ) : List RawLogprobItem → List PreDedupEntry
  | [] => []
  | x :: rest => ⟨x.token, x.logprob, i + 1⟩ :: toPreDedup (i + 1) rest

/-- Stable descending insertion, keyed by log-probability: an element is
placed before the first entry with a not-strictly-greater key.  Elements
with equal keys keep their original relative order, matching the stable JS
`Array.prototype.sort` with comparator `(a, b) => b.probability -
a.probability` (probability = `Math.exp(logprob)` is strictly increasing
in `logprob`, so the comparator orders by `logprob`). -/
def insertByLogprob (x : PreDedupEntry) : List PreDedupEntry → List PreDedupEntry
  | [] => [x]
  | y :: ys => if x.logprob < y.logprob then y :: insertByLogprob x ys else x :: y :: ys

/-- Embedding of `tokenDistribution.sort((a, b) => b.probability - a.probability)`
as a stable descending insertion sort. -/
def sortByProbDesc (l : List PreDedupEntry) : List PreDedupEntry :=
  l.foldr insertByLogprob []

/-- Embedding of the deduplication loop of `getNextTokenDistribution`:
iterate over the sorted entries, skip entries whose trimmed token is empty,
keep the first occurrence of each distinct trimmed token (the `seenTokens`
map is carried as the list `seen`), and mark `isChosen` by comparison with
the trimmed chosen token. -/
def dedupLoop (chosenTrim : String) : List PreDedupEntry → List String → List TokenCandidate
  | [], _ => []
  | item :: rest, seen =>
    let normalizedToken := jsTrim item.token
    if normalizedToken = "" then dedupLoop chosenTrim rest seen
    else if normalizedToken ∈ seen then dedupLoop chosenTrim rest seen
    else
      { token := normalizedToken
        originalToken := item.token
        logprob := item.logprob
        rank := 0
        isChosen := normalizedToken == chosenTrim } ::
        dedupLoop chosenTrim rest (normalizedToken :: seen)

/-- Embedding of `forEach((item, index) => { item.rank = index + 1 })`,
indices counted from `i`. -/
def assignRanksFrom (i : ℕ) : List TokenCandidate → List TokenCandidate
  | [] => []
  | e :: rest => { e with rank := i + 1 } :: assignRanksFrom (i + 1) rest

/-- Rank reassignment starting at rank 1. -/
def assignRanks (l : List TokenCandidate) : List TokenCandidate :=
  assignRanksFrom 0 l

/-- The value returned by `getNextTokenDistribution` (the UI-only
`fullContent` string is omitted). -/
structure Mode1Result where
  chosenToken : String
  chosenOriginalToken : String
  distribution : List TokenCandidate
deriving DecidableEq, Repr

/-- Embedding of the pure normalisation pipeline of
`getNextTokenDistribution` (js/api.js): inputs are the first generated
token (`firstTokenData.token` and its log-probability — `Option` because
the source guards with `firstTokenData.logprob || 0`) and the raw
`top_logprobs` list.  Convert, sort, deduplicate, re-rank, and synthesize
a rank-1 chosen entry if the chosen token is absent. -/
def getNextTokenDistributionRun (chosenTokenRaw : String) (chosenLogprob : Option ℚ)
    (topLogprobs : List RawLogprobItem) : Mode1Result :=
  let tokenDistribution := toPreDedup 0 topLogprobs
  let sorted := sortByProbDesc tokenDistribution
  let normalizedChosenToken := jsTrim chosenTokenRaw
  let deduplicated := assignRanks (dedupLoop normalizedChosenToken sorted [])
  if (deduplicated.find? (fun t => t.isChosen)).isSome then
    ⟨normalizedChosenToken, chosenTokenRaw, deduplicated⟩
  else
    ⟨normalizedChosenToken, chosenTokenRaw,
      assignRanks
        ({ token := normalizedChosenToken
           originalToken := chosenTokenRaw
           logprob := chosenLogprob.getD 0
           rank := 1
           isChosen := true } :: deduplicated)⟩

/-! ## Candidate Selector (`selectTokenOptions`, unnamed mode-1 revision) -/

/-- Embedding of the regex test `/^[^a-zA-Z0-9]+$/.test(s)`: `s` is nonempty
and consists entirely of non-alphanumeric characters. -/
def pureNonAlnum (s : String) : Bool :=
  s.length > 0 && s.data.all (fun c => !(c.isAlpha || c.isDigit))

/-- The apostrophe character (code point 39). -/
def apostropheChar : Char := Char.ofNat 39

/-- Embedding of the regex test `/^[^a-zA-Z0-9']/.test(s)`: the first
character exists and is not alphanumeric and not an apostrophe. -/
def startsWithPunct (s : String) : Bool :=
  match s.data with
  | [] => false
  | c :: _ => !(c.isAlpha || c.isDigit || c == apostropheChar)

/-- `validSingleLetterWords` from `isValidWord`. -/
def validSingleLetterWords : List String := ["a", "i"]

/-- `validTwoLetterWords` from `isValidWord`. -/
def validTwoLetterWords : List String :=
  ["am", "an", "as", "at", "be", "by", "do", "go", "he", "hi",
   "if", "in", "is", "it", "me", "my", "no", "of", "on", "or",
   "so", "to", "up", "us", "we"]

/-- `validThreeLetterWords` from `isValidWord`. -/
def validThreeLetterWords : List String :=
  ["the", "and", "for", "are", "but", "not", "you", "all", "can", "her",
   "was", "one", "our", "out", "day", "get", "has", "him", "his", "how",
   "its", "may", "new", "now", "old", "see", "two", "who", "boy", "did",
   "let", "put", "say", "she", "too", "use", "way", "far", "few", "got",
   "had", "lot", "off", "own", "run", "set", "top", "yet", "big", "hot",
   "sun", "red", "dog", "eat", "far", "fun", "job", "law", "add", "age",
   "ago", "air", "arm", "art", "ask", "bad", "bag", "bar", "bed", "bit",
   "box", "bus", "buy", "car", "cat", "cup", "cut", "dad", "die", "due",
   "end", "eye", "far", "fat", "fit", "fly", "god", "gun", "guy", "hit",
   "ice", "key", "kid", "lay", "leg", "lie", "low", "mad", "man", "map",
   "men", "mix", "mom", "nor", "oil", "pay", "per", "pop", "pot", "red",
   "rid", "row", "sad", "sat", "sea", "sir", "sit", "six", "son", "tax",
   "tea", "ten", "tie", "tip", "try", "war", "win", "yes", "via", "hot"]

/-- Alternatives of the two `suffixOnlyPatterns` regexes (anchored
alternations of literal strings; the input is already lowercased, so the
`i` flag is immaterial). -/
def suffixOnlyFragments : List String :=
  ["ing", "ed", "tion", "sion", "ness", "ment", "ity", "ly", "er", "est",
   "ful", "less", "able", "ible", "ous", "ious", "ive", "al", "ial", "ent",
   "ant", "ence", "ance", "ure", "ture",
   "es", "nt", "unt", "ist", "ism", "ship", "dom", "hood"]

/-- Alternatives of the two `prefixOnlyPatterns` regexes. -/
def prefixOnlyFragments : List String :=
  ["un", "re", "pre", "dis", "mis", "non", "over", "under", "sub", "inter",
   "fore", "anti", "semi", "mid", "mini", "micro", "mega", "super",
   "gro", "hes", "whe", "tha", "thi", "whi", "sho", "cou", "wou", "mus", "nee"]

/-- Vowels tested by `/[aeiouAEIOU]/`. -/
def isVowelChar (c : Char) : Bool :=
  c ∈ (['a', 'e', 'i', 'o', 'u', 'A', 'E', 'I', 'O', 'U'] : List Char)

/-- Embedding of `isValidWord` from the unnamed mode-1 revision: the
heuristic whole-word filter applied to decoy candidates. -/
def isValidWord (token : String) : Bool :=
  let trimmed := jsToLower (jsTrim token)
  if trimmed = "" then false
  else if pureNonAlnum trimmed then false
  else if !(trimmed.data.any Char.isAlpha) then false
  else if trimmed.data.filter Char.isAlpha = [] then false
  else if trimmed.length == 1 then validSingleLetterWords.contains trimmed
  else if trimmed.length == 2 then validTwoLetterWords.contains trimmed
  else if trimmed.length == 3 then validThreeLetterWords.contains trimmed
  else if startsWithPunct trimmed then false
  else if suffixOnlyFragments.contains trimmed then false
  else if prefixOnlyFragments.contains trimmed then false
  else if decide (4 ≤ trimmed.length) && !(trimmed.data.any isVowelChar) then false
  else true

/-- Embedding of `isTokenSelected(selected, tokenString)`: some already
selected candidate has the same trimmed text. -/
def isTokenSelected (selected : List TokenCandidate) (tokenString : String) : Bool :=
  selected.any (fun t => jsTrim t.token == jsTrim tokenString)

/-- Embedding of the destructuring swap
`[a[i], a[j]] = [a[j], a[i]]`: simultaneous double update (identity when an
index is out of bounds, which the shuffle loop never produces). -/
def listSwap {α : Type} (l : List α) (i j : ℕ) : List α :=
  match l.get? i, l.get? j with
  | some a, some b => (l.set i b).set j a
  | _, _ => l

/-- Embedding of the Fisher–Yates loop of `shuffleArray`: `i` counts down
from `length - 1` to `1`; each iteration consumes one random draw `r` from
the oracle, giving `j = r % (i + 1)` (the value of
`Math.floor(Math.random() * (i + 1))` ranges over exactly these `j`). -/
def shuffleLoop {α : Type} : List ℕ → ℕ → List α → List α
  | _, 0, l => l
  | rs, i + 1, l =>
    let j := rs.headD 0 % (i + 2)
    shuffleLoop rs.tail i (listSwap l (i + 1) j)

/-- Embedding of `shuffleArray(array)`: copy (`[...array]` — value
semantics make the copy implicit and leave the argument untouched) and run
the Fisher–Yates loop from index `length - 1`. -/
def shuffleArray {α : Type} (oracle : List ℕ) (array : List α) : List α :=
  shuffleLoop oracle (array.length - 1) array

/-- Uniform random pick `l[Math.floor(Math.random() * l.length)]` from a
nonempty list, with the random draw modelled by the oracle value `r`;
`none` when the list is empty (the source guards with `length > 0` and
never draws in that case). -/
def pickRandom {α : Type} (r : ℕ) : List α → Option α
  | [] => none
  | x :: xs => some ((x :: xs).getD (r % (xs.length + 1)) x)

/-- Band filter used for the mid/low/veryLow selections:
candidates of `validDistribution` whose rank lies in `[lo, hi]` and whose
trimmed text is not already selected. -/
def bandFilter (lo hi : ℕ) (validDistribution selected : List TokenCandidate) :
    List TokenCandidate :=
  validDistribution.filter
    (fun t => decide (lo ≤ t.rank) && decide (t.rank ≤ hi) &&
      !isTokenSelected selected t.token)

/-- Filter for the fallback relaxation: not yet selected and not empty or
pure punctuation after trimming. -/
def fallbackFilter (selected distribution : List TokenCandidate) : List TokenCandidate :=
  distribution.filter
    (fun t => !isTokenSelected selected t.token &&
      !(jsTrim t.token == "") && !pureNonAlnum (jsTrim t.token))

/-- Embedding of the `while (selected.length < 4)` fill loop of
`selectTokenOptions`.  Each iteration appends exactly one candidate or
breaks, so at most 4 iterations run; `fuel = 4` therefore reproduces the
loop exactly. -/
def fillLoop : ℕ → List TokenCandidate → List TokenCandidate → List TokenCandidate →
    List TokenCandidate
  | 0, selected, _, _ => selected
  | fuel + 1, selected, validDistribution, distribution =>
    if selected.length < 4 then
      match validDistribution.filter (fun t => !isTokenSelected selected t.token) with
      | r :: _ => fillLoop fuel (selected ++ [r]) validDistribution distribution
      | [] =>
        match fallbackFilter selected distribution with
        | f :: _ => fillLoop fuel (selected ++ [f]) validDistribution distribution
        | [] => selected
    else selected

/-- Embedding of `selectTokenOptions(distribution)` from the unnamed mode-1
revision.  `correctToken` is the module-level `gameState.correctToken`;
`rMid`, `rLow`, `rVeryLow` are the random draws for the three band picks
and `shuffleOracle` the draws of the final shuffle. -/
def selectTokenOptions (rMid rLow rVeryLow : ℕ) (shuffleOracle : List ℕ)
    (correctToken : String) (distribution : List TokenCandidate) : List TokenCandidate :=
  let selected0 : List TokenCandidate :=
    match distribution.find? (fun t => t.token == correctToken) with
    | some t => [t]
    | none => []
  let validDistribution := distribution.filter
    (fun t => isValidWord t.token && !isTokenSelected selected0 t.token)
  if validDistribution.length < 3 then
    let selected1 := selected0 ++ validDistribution
    let fallbackTokens := fallbackFilter selected1 distribution
    let needed := 4 - selected1.length
    shuffleArray shuffleOracle (selected1 ++ fallbackTokens.take needed)
  else
    let midTokens := bandFilter midMin midMax validDistribution selected0
    let selected1 := match pickRandom rMid midTokens with
      | some t => selected0 ++ [t]
      | none => selected0
    let lowTokens := bandFilter lowMin lowMax validDistribution selected1
    let selected2 := match pickRandom rLow lowTokens with
      | some t => selected1 ++ [t]
      | none => selected1
    let veryLowTokens := bandFilter veryLowMin veryLowMax validDistribution selected2
    let selected3 := match pickRandom rVeryLow veryLowTokens with
      | some t => selected2 ++ [t]
      | none => selected2
    shuffleArray shuffleOracle (fillLoop 4 selected3 validDistribution distribution)

/-! ## Target Probability Estimator (js/api.js, Mode 2) -/

/-- Error kinds thrown by `makeOpenAIRequest`. -/
inductive ApiError
  | rateLimit
  | invalidApiKey
  | other (msg : String)
deriving DecidableEq, Repr

/-- One `top_logprobs` candidate of a mode-2 continuation position.
The field `prob` is the linear probability `Math.exp(logprobItem.logprob)`
— the only use the source makes of the log-probability. -/
structure ScanItem where
  token : String
  prob : ℚ
deriving DecidableEq, Repr

/-- One per-position record of `logprobsData.content`; `topLogprobs` is
`none` when the position has no `top_logprobs` field (the loop `continue`s). -/
structure ScanPosition where
  topLogprobs : Option (List ScanItem)
deriving DecidableEq, Repr

/-- Embedding of the `relatedForms` table of `generateTargetVariations`:
hand-authored synonym lists keyed by the lowercased target. -/
def relatedForms (targetLower : String) : List String :=
  if targetLower = "accident" then ["crash", "collision", "mishap"]
  else if targetLower = "argument" then ["fight", "dispute", "disagree", "quarrel"]
  else if targetLower = "apology" then ["sorry", "apologize", "regret"]
  else if targetLower = "confession" then ["confess", "admit", "reveal"]
  else if targetLower = "crime" then ["criminal", "illegal", "theft", "murder"]
  else if targetLower = "surprise" then ["shocked", "unexpected", "astonish"]
  else if targetLower = "revelation" then ["reveal", "discover", "uncover"]
  else if targetLower = "betrayal" then ["betray", "deceive", "backstab"]
  else if targetLower = "discovery" then ["discover", "found", "uncovered"]
  else if targetLower = "reunion" then ["reunite", "meet again", "together again"]
  else []

/-- Embedding of `generateTargetVariations(target)`: the lowercased target,
its four suffixed forms, then the synonym list (empty for unknown targets). -/
def generateTargetVariations (target : String) : List String :=
  let tl := jsToLower target
  [tl] ++ (["s", "ed", "ing", "ly"].map (fun suffix => tl ++ suffix)) ++ relatedForms tl

/-- The match test of the inner loop of `checkLogprobsForTarget`:
`token === targetLower || token.includes(targetLower) ||
targetVariations.some(v => token.includes(v))` applied to the lowercased,
trimmed candidate text. -/
def scanTokenMatches (targetLower : String) (targetVariations : List String)
    (token : String) : Bool :=
  token == targetLower || strIncludes token targetLower ||
    targetVariations.any (fun v => strIncludes token v)

/-- Embedding of the nested scan loops of `checkLogprobsForTarget`:
`maxProbability` starts at 0 and is raised to each matching candidate's
linear probability. -/
def scanMaxProbability (targetLower : String) (targetVariations : List String)
    (content : List ScanPosition) : ℚ :=
  content.foldl
    (fun acc tokenData =>
      match tokenData.topLogprobs with
      | none => acc
      | some items =>
        items.foldl
          (fun acc2 item =>
            let token := jsTrim (jsToLower item.token)
            if scanTokenMatches targetLower targetVariations token then
              max acc2 item.prob
            else acc2)
          acc)
    0

/-- Embedding of `checkLogprobsForTarget(context, target)`.  The network
response is supplied as `net`: `.error` models a rejected request (caught,
yielding 0), `.ok none` models a response whose `logprobs` or
`logprobs.content` is missing, `.ok (some content)` a response with
per-position data.  Returns `maxProbability * 200`. -/
def checkLogprobsForTargetRun (net : Except ApiError (Option (List ScanPosition)))
    (target : String) : ℚ :=
  match net with
  | .error _ => 0
  | .ok none => 0
  | .ok (some content) =>
    let targetLower := jsToLower target
    let targetVariations := generateTargetVariations target
    scanMaxProbability targetLower targetVariations content * 200

/-- Embedding of `getLLMProbabilityEstimate(context, target)`.  The network
response is supplied at the parsed-number level: `.error` models a rejected
request (caught, yielding 0), `.ok none` a response whose content parses to
`NaN` (yielding 0), `.ok (some p)` a response parsing to the number `p`,
which is clamped into `[0, 100]`. -/
def getLLMProbabilityEstimateRun (net : Except ApiError (Option ℚ)) : ℚ :=
  match net with
  | .error _ => 0
  | .ok none => 0
  | .ok (some probability) => max 0 (min 100 probability)

/-- Embedding of `estimateTargetProbability(context, target)`.  Both callees
catch their own network failures and return 0 instead of throwing, so the
`try` body never throws and the surrounding `catch` (fallback to the LLM
estimate alone, rethrow on double failure) is unreachable: the function
always returns `.ok` of the weighted, clamped blend. -/
def estimateTargetProbabilityRun (netLogprobs : Except ApiError (Option (List ScanPosition)))
    (netEstimate : Except ApiError (Option ℚ)) (target : String) : Except ApiError ℚ :=
  let logprobScore := checkLogprobsForTargetRun netLogprobs target
  let llmScore := getLLMProbabilityEstimateRun netEstimate
  let combinedScore := logprobScore * (6 / 10 : ℚ) + llmScore * (4 / 10 : ℚ)
  .ok (max 0 (min 100 combinedScore))

/-! ### Spec-side restatement of the logprob-presence signal -/

/-- Spec-side matching predicate: the trimmed, lowercased candidate text
contains the target word or one of its precomputed variations as a
substring (equality is the special case of a full-length substring). -/
def specMatches (target : String) (rawToken : String) : Bool :=
  (generateTargetVariations target).any
    (fun v => strIncludes (jsTrim (jsToLower rawToken)) v)

/-- Spec-side collection of the linear probabilities of every matching
candidate at every position. -/
def allMatchingProbs (content : List ScanPosition) (target : String) : List ℚ :=
  (((content.filterMap (fun p => p.topLogprobs)).flatten).filter
    (fun item => specMatches target item.token)).map (fun item => item.prob)

/-- Spec-side signal value: 200 times the maximum matching linear
probability (0 when nothing matches). -/
def logprobSignalSpec (content : List ScanPosition) (target : String) : ℚ :=
  200 * (allMatchingProbs content target).foldr max 0

/-! ## Steering Session (js/mode2.js) -/

/-- The fields of the module-level `gameState` of `js/mode2.js` that carry
game semantics (the UI-only `journeySummaryHTML`/`aiAnalysis` strings are
omitted). -/
structure GameState where
  isActive : Bool
  hiddenTarget : String
  currentTurn : ℕ
  maxTurns : ℕ
  startingPrompt : String
  currentContext : String
  currentProbability : ℚ
  previousProbability : ℚ
  probabilityHistory : List ℚ
  nudgeHistory : List String
  hasWon : Bool
deriving DecidableEq, Repr

/-- Embedding of `startGame()`: reset the state object (with
`probabilityHistory: []`), then `gameState.probabilityHistory.push(0)`. -/
def startGameRun (hiddenTarget startingPrompt : String) : GameState :=
  let g : GameState :=
    { isActive := true
      hiddenTarget := hiddenTarget
      currentTurn := 0
      maxTurns := mode2MaxTurns
      startingPrompt := startingPrompt
      currentContext := startingPrompt
      currentProbability := 0
      previousProbability := 0
      probabilityHistory := []
      nudgeHistory := []
      hasWon := false }
  { g with probabilityHistory := g.probabilityHistory ++ [0] }

/-- Embedding of `updateProbability()`: store the previous probability,
then either record the new estimate (appending to the history) or rethrow
the estimation error — the `previousProbability` mutation persists either
way because `gameState` is module-level. -/
def updateProbabilityRun (s : GameState) (estimate : Except ApiError ℚ) :
    GameState × Option ApiError :=
  let s1 := { s with previousProbability := s.currentProbability }
  match estimate with
  | .error e => (s1, some e)
  | .ok probability =>
    ({ s1 with
        currentProbability := probability
        probabilityHistory := s1.probabilityHistory ++ [probability] }, none)

/-- Embedding of `handleNudgeSubmit()`.  `inputValue` is the nudge input
field and `estimate` the outcome of the probability-estimation call.
Validation failures return before any state mutation.  On success the win
and max-turn checks run (`endGame()` sets `isActive := false`); on
estimation failure the `catch` block reverts only `currentTurn`. -/
def handleNudgeSubmitRun (s : GameState) (inputValue : String)
    (estimate : Except ApiError ℚ) : GameState :=
  if !s.isActive then s
  else
    let nudge := jsTrim inputValue
    if nudge = "" then s
    else if maxNudgeWords < countWords nudge then s
    else
      let s1 := { s with
        currentContext := s.currentContext ++ " " ++ nudge
        nudgeHistory := s.nudgeHistory ++ [nudge]
        currentTurn := s.currentTurn + 1 }
      match updateProbabilityRun s1 estimate with
      | (s2, some _) =>
        if 0 < s2.currentTurn then { s2 with currentTurn := s2.currentTurn - 1 } else s2
      | (s2, none) =>
        if 100 ≤ s2.currentProbability then
          { s2 with hasWon := true, isActive := false }
        else if s2.maxTurns ≤ s2.currentTurn then
          { s2 with isActive := false }
        else s2

/-- Concrete failing scenario for the rollback analysis: a fresh session. -/
def rollbackPre : GameState :=
  startGameRun "accident" "Sarah walked into the office that morning, not knowing that"

/-- The session state after submitting the valid nudge "car crash" while the
probability-estimation call fails. -/
def rollbackPost : GameState :=
  handleNudgeSubmitRun rollbackPre "car crash" (.error .rateLimit)

/-! ## Helper lemmas: strings -/

theorem dropWhile_head_false {α : Type} (p : α → Bool) (l : List α) (c : α) (t : List α)
    (h : l.dropWhile p = c :: t) : p c = false := by
  induction l with
  | nil => simp at h
  | cons x xs ih =>
    by_cases hx : p x
    · rw [List.dropWhile_cons_of_pos hx] at h
      exact ih h
    · rw [List.dropWhile_cons_of_neg hx] at h
      cases h
      exact Bool.eq_false_iff.mpr hx

theorem dropWhile_idem {α : Type} (p : α → Bool) (l : List α) :
    (l.dropWhile p).dropWhile p = l.dropWhile p := by
  cases h : l.dropWhile p with
  | nil => rfl
  | cons c t =>
    rw [List.dropWhile_cons_of_neg]
    rw [dropWhile_head_false p l c t h]
    simp

theorem trimChars_idem (l : List Char) : trimChars (trimChars l) = trimChars l := by
  unfold trimChars
  set w := Char.isWhitespace with hw
  set A := l.dropWhile w with hA
  set B := A.reverse.dropWhile w with hB
  have h1 : B.reverse.dropWhile w = B.reverse := by
    have hsuf : B <:+ A.reverse := List.dropWhile_suffix w
    obtain ⟨C, hC⟩ := hsuf
    cases hBr : B.reverse with
    | nil => simp
    | cons c t =>
      have hArev : A = B.reverse ++ C.reverse := by
        have h2 := congrArg List.reverse hC
        simpa using h2.symm
      have hAc : A = c :: (t ++ C.reverse) := by rw [hArev, hBr]; simp
      have hcw : w c = false :=
        dropWhile_head_false w l c (t ++ C.reverse) (hA.symm.trans hAc)
      rw [List.dropWhile_cons_of_neg (by rw [hcw]; simp)]
  rw [h1, List.reverse_reverse]
  rw [hB, dropWhile_idem]

theorem jsTrim_idem (s : String) : jsTrim (jsTrim s) = jsTrim s := by
  unfold jsTrim
  exact congrArg String.mk (trimChars_idem s.data)

theorem charsIncludes_self (l : List Char) : charsIncludes l l = true := by
  cases l with
  | nil => rfl
  | cons c t =>
    unfold charsIncludes
    have h1 : (c :: t).isPrefixOf (c :: t) = true :=
      List.isPrefixOf_iff_prefix.mpr List.prefix_rfl
    simp [h1]

theorem strIncludes_self (s : String) : strIncludes s s = true :=
  charsIncludes_self s.data

/-! ## Helper lemmas: permutations of the Fisher–Yates shuffle -/

theorem cons_set_perm {α : Type} :
    ∀ (t : List α) (j : ℕ) (b x : α), t.get? j = some b →
      (b :: t.set j x).Perm (x :: t) := by
  intro t
  induction t with
  | nil => intro j b x h; simp at h
  | cons y ys ih =>
    intro j b x h
    cases j with
    | zero =>
      obtain rfl : y = b := by simpa using h
      simpa using List.Perm.swap x y ys
    | succ m =>
      simp only [List.get?_cons_succ] at h
      have h1 : (b :: y :: ys.set m x).Perm (y :: b :: ys.set m x) :=
        List.Perm.swap y b (ys.set m x)
      have h2 : (y :: b :: ys.set m x).Perm (y :: x :: ys) :=
        List.Perm.cons y (ih m b x h)
      have h3 : (y :: x :: ys).Perm (x :: y :: ys) := List.Perm.swap x y ys
      exact (h1.trans h2).trans h3

theorem set_set_perm {α : Type} :
    ∀ (l : List α) (i j : ℕ) (a b : α), l.get? i = some a → l.get? j = some b →
      ((l.set i b).set j a).Perm l := by
  intro l
  induction l with
  | nil => intro i j a b hi hj; simp at hi
  | cons x xs ih =>
    intro i j a b hi hj
    cases i with
    | zero =>
      obtain rfl : x = a := by simpa using hi
      cases j with
      | zero =>
        obtain rfl : x = b := by simpa using hj
        simp
      | succ m =>
        simp only [List.get?_cons_succ] at hj
        have he : ((x :: xs).set 0 b).set (m + 1) x = b :: xs.set m x := by simp
        rw [he]
        exact cons_set_perm xs m b x hj
    | succ k =>
      simp only [List.get?_cons_succ] at hi
      cases j with
      | zero =>
        obtain rfl : x = b := by simpa using hj
        have he : ((x :: xs).set (k + 1) x).set 0 a = a :: xs.set k x := by simp
        rw [he]
        exact cons_set_perm xs k a x hi
      | succ m =>
        simp only [List.get?_cons_succ] at hj
        have he : ((x :: xs).set (k + 1) b).set (m + 1) a = x :: (xs.set k b).set m a := by
          simp
        rw [he]
        exact List.Perm.cons x (ih k m a b hi hj)

theorem listSwap_perm {α : Type} (l : List α) (i j : ℕ) : (listSwap l i j).Perm l := by
  unfold listSwap
  cases hi : l.get? i with
  | none => exact List.Perm.refl l
  | some a =>
    cases hj : l.get? j with
    | none => exact List.Perm.refl l
    | some b => exact set_set_perm l i j a b hi hj

theorem shuffleLoop_perm {α : Type} :
    ∀ (rs : List ℕ) (i : ℕ) (l : List α), (shuffleLoop rs i l).Perm l := by
  intro rs i
  induction i generalizing rs with
  | zero => intro l; exact List.Perm.refl l
  | succ i' ih =>
    intro l
    unfold shuffleLoop
    exact (ih rs.tail (listSwap l (i' + 1) (rs.headD 0 % (i' + 2)))).trans
      (listSwap_perm l (i' + 1) (rs.headD 0 % (i' + 2)))

/-- C10: for every input array and every sequence of random draws,
`shuffleArray` returns a permutation of its input — the same length and the
same multiset of elements — and, being a pure function of a copied list,
leaves the input value unmodified; hence the shuffled round options are
exactly the candidates selected before shuffling. -/
theorem shuffleArray_is_permutation {α : Type} (oracle : List ℕ) (array : List α) :
    (shuffleArray oracle array).Perm array :=
  shuffleLoop_perm oracle (array.length - 1) array

/-! ## Steering Session claims -/

/-- C1: evaluation of the failure path of `handleNudgeSubmit` at a concrete
failing input.  A fresh session receives the valid nudge "car crash" and
the probability-estimation call fails.  The turn counter and the
probability history are restored, but the nudge remains appended to both
the context and the nudge history: the rollback demanded by the
specification is not atomic, and the session is left with a corrupted
state (a recorded nudge without a consumed turn). -/
theorem submitNudge_rollback_not_atomic :
    rollbackPost.currentTurn = rollbackPre.currentTurn ∧
    rollbackPost.probabilityHistory = rollbackPre.probabilityHistory ∧
    rollbackPost.currentContext ≠ rollbackPre.currentContext ∧
    rollbackPost.nudgeHistory ≠ rollbackPre.nudgeHistory ∧
    rollbackPost.currentContext = rollbackPre.currentContext ++ " car crash" ∧
    rollbackPost.nudgeHistory = ["car crash"] := by
  decide

/-- C8: `handleNudgeSubmit` rejects, with no change whatsoever to the
session state and independently of the estimation call's outcome, every
nudge whose text is empty after trimming or whose word count exceeds
`CONFIG.mode2.maxNudgeWords`, and that configured maximum is 6. -/
theorem submitNudge_rejects_invalid :
    (∀ (s : GameState) (inputValue : String) (estimate : Except ApiError ℚ),
      (jsTrim inputValue = "" ∨ maxNudgeWords < countWords (jsTrim inputValue)) →
        handleNudgeSubmitRun s inputValue estimate = s) ∧
    maxNudgeWords = 6 := by
  refine ⟨?_, rfl⟩
  intro s inputValue estimate h
  unfold handleNudgeSubmitRun
  rcases h with h | h
  · by_cases hA : s.isActive
    · simp [hA, h]
    · simp [hA]
  · by_cases hA : s.isActive
    · by_cases hE : jsTrim inputValue = ""
      · simp [hA, hE]
      · simp [hA, hE, h]
    · simp [hA]

/-- C8 witness: a seven-word nudge and a whitespace-only nudge are both
rejected by a fresh session without any state change. -/
theorem submitNudge_rejects_invalid_witness :
    handleNudgeSubmitRun (startGameRun "accident" "p") "a b c d e f g" (.ok 100) =
      startGameRun "accident" "p" ∧
    handleNudgeSubmitRun (startGameRun "accident" "p") "   " (.ok 100) =
      startGameRun "accident" "p" :=
  ⟨submitNudge_rejects_invalid.1 _ _ _ (Or.inr (by decide)),
   submitNudge_rejects_invalid.1 _ _ _ (Or.inl (by decide))⟩

/-- C6: starting a steering session sets `currentTurn = 0` and
`probabilityHistory = [0]` on an active, not-yet-won state; an accepted
nudge whose estimate is at least 100 puts the session in the Won terminal
state (`isActive = false`, `hasWon = true`); an accepted nudge whose
estimate stays below 100 while the incremented turn reaches `maxTurns`
puts it in the Exhausted terminal state (`isActive = false`,
`hasWon = false`); otherwise the session remains in progress with the new
probability appended to the history. -/
theorem steering_session_lifecycle :
    (∀ target prompt, (startGameRun target prompt).currentTurn = 0 ∧
      (startGameRun target prompt).probabilityHistory = [0] ∧
      (startGameRun target prompt).isActive = true ∧
      (startGameRun target prompt).hasWon = false ∧
      (startGameRun target prompt).maxTurns = mode2MaxTurns) ∧
    (∀ (s : GameState) (inputValue : String) (q : ℚ),
      s.isActive = true → jsTrim inputValue ≠ "" →
      countWords (jsTrim inputValue) ≤ maxNudgeWords →
      (let post := handleNudgeSubmitRun s inputValue (.ok q)
       post.currentTurn = s.currentTurn + 1 ∧
       post.probabilityHistory = s.probabilityHistory ++ [q] ∧
       post.hasWon = (if 100 ≤ q then true else s.hasWon) ∧
       post.isActive = !(100 ≤ q ∨ s.maxTurns ≤ s.currentTurn + 1))) := by
  constructor
  · intro target prompt
    exact ⟨rfl, rfl, rfl, rfl, rfl⟩
  · intro s inputValue q hA hNe hWc
    have hWc' : ¬maxNudgeWords < countWords (jsTrim inputValue) := not_lt.mpr hWc
    simp only [handleNudgeSubmitRun, updateProbabilityRun, hA, hNe, hWc',
      Bool.not_true, Bool.false_eq_true, if_false, if_neg hNe, if_neg hWc']
    by_cases h100 : (100 : ℚ) ≤ q
    · simp [h100]
    · by_cases hMax : s.maxTurns ≤ s.currentTurn + 1
      · simp [h100, hMax]
      · simp [h100, hMax]

/-- C6 witness: in a fresh session the starting invariants hold, a first
nudge estimated at 100 wins (terminal, won), a first nudge estimated at 40
leaves the session in progress with history [0, 40], and a session at its
last turn whose nudge is estimated at 40 is exhausted (terminal, not won). -/
theorem steering_session_lifecycle_witness :
    ((startGameRun "accident" "p").currentTurn = 0 ∧
      (startGameRun "accident" "p").probabilityHistory = [0] ∧
      (startGameRun "accident" "p").isActive = true ∧
      (startGameRun "accident" "p").hasWon = false ∧
      (startGameRun "accident" "p").maxTurns = mode2MaxTurns) ∧
    (let post := handleNudgeSubmitRun (startGameRun "accident" "p") "crash" (.ok 100)
     post.currentTurn = 0 + 1 ∧
     post.probabilityHistory = [0] ++ [100] ∧
     post.hasWon = (if (100 : ℚ) ≤ 100 then true else false) ∧
     post.isActive = !((100 : ℚ) ≤ 100 ∨ 10 ≤ 0 + 1)) ∧
    (let post := handleNudgeSubmitRun (startGameRun "accident" "p") "crash" (.ok 40)
     post.currentTurn = 0 + 1 ∧
     post.probabilityHistory = [0] ++ [40] ∧
     post.hasWon = (if (100 : ℚ) ≤ 40 then true else false) ∧
     post.isActive = !((100 : ℚ) ≤ 40 ∨ 10 ≤ 0 + 1)) := by
  refine ⟨steering_session_lifecycle.1 "accident" "p", ?_, ?_⟩
  · exact steering_session_lifecycle.2 (startGameRun "accident" "p") "crash" 100
      rfl (by decide) (by decide)
  · exact steering_session_lifecycle.2 (startGameRun "accident" "p") "crash" 40
      rfl (by decide) (by decide)

/-! ## Target Probability Estimator claims -/

/-- C2: evaluation of `estimateTargetProbability` at concrete failing
inputs.  When both the logprob request and the model-estimate request fail,
both inner catch blocks return 0 and the estimator reports the fabricated
probability 0 as a success instead of propagating an error (its fallback
and rethrow code is unreachable).  When only the logprob path fails, the
result is the weighted value 0.4 × 50 = 20, not the model-estimate signal
alone (which is 50). -/
theorem estimator_fabricates_zero_on_failure :
    estimateTargetProbabilityRun (.error .rateLimit) (.error .rateLimit) "accident" =
      .ok 0 ∧
    estimateTargetProbabilityRun (.error .rateLimit) (.ok (some 50)) "accident" =
      .ok 20 ∧
    getLLMProbabilityEstimateRun (.ok (some 50)) = 50 := by
  refine ⟨?_, ?_, ?_⟩ <;> simp [estimateTargetProbabilityRun,
    checkLogprobsForTargetRun, getLLMProbabilityEstimateRun] <;> norm_num

theorem clampQ_high (s : ℚ) (h : 100 ≤ s) : max 0 (min 100 s) = 100 := by
  rw [min_eq_left h]
  exact max_eq_right (by norm_num)

theorem clampQ_low (s : ℚ) (h : s ≤ 0) : max 0 (min 100 s) = 0 := by
  rw [max_eq_left]
  exact le_trans (min_le_right _ _) h

theorem clampQ_bounds (s : ℚ) : 0 ≤ max 0 (min 100 s) ∧ max 0 (min 100 s) ≤ 100 :=
  ⟨le_max_left _ _, max_le (by norm_num) (min_le_left _ _)⟩

/-- C7: the estimator always combines its two signals as
0.6 × logprob-signal + 0.4 × model-estimate-signal clamped into [0, 100];
a logprob signal of 0 with a model estimate of 50 yields 20; a logprob
signal of 80 (a matching candidate of linear probability 2/5, amplified by
200) with a model estimate of 80 yields 80; any combination whose weighted
sum exceeds 100 is clamped to 100, any weighted signal combination below 0
would be clamped to 0 by the same `Math.max(0, Math.min(100, ...))`
expression (the two signals the code produces are themselves nonnegative),
and every produced value lies in [0, 100]. -/
theorem estimator_combines_and_clamps :
    (∀ netLogprobs netEstimate target,
      estimateTargetProbabilityRun netLogprobs netEstimate target =
        .ok (max 0 (min 100
          (checkLogprobsForTargetRun netLogprobs target * (6 / 10 : ℚ) +
            getLLMProbabilityEstimateRun netEstimate * (4 / 10 : ℚ))))) ∧
    estimateTargetProbabilityRun (.ok none) (.ok (some 50)) "accident" = .ok 20 ∧
    estimateTargetProbabilityRun (.ok (some [⟨some [⟨"accident", 2 / 5⟩]⟩]))
      (.ok (some 80)) "accident" = .ok 80 ∧
    (∀ netLogprobs netEstimate target,
      100 < checkLogprobsForTargetRun netLogprobs target * (6 / 10 : ℚ) +
          getLLMProbabilityEstimateRun netEstimate * (4 / 10 : ℚ) →
        estimateTargetProbabilityRun netLogprobs netEstimate target = .ok 100) ∧
    (∀ logprobScore llmScore : ℚ,
      logprobScore * (6 / 10 : ℚ) + llmScore * (4 / 10 : ℚ) < 0 →
        max 0 (min 100 (logprobScore * (6 / 10 : ℚ) + llmScore * (4 / 10 : ℚ))) = 0) ∧
    (∀ netLogprobs netEstimate target q,
      estimateTargetProbabilityRun netLogprobs netEstimate target = .ok q →
        0 ≤ q ∧ q ≤ 100) := by
  refine ⟨fun _ _ _ => rfl, ?_, ?_, ?_, ?_, ?_⟩
  · have hrfl : estimateTargetProbabilityRun (.ok none) (.ok (some 50)) "accident" =
        .ok (max 0 (min 100 ((0 : ℚ) * (6 / 10 : ℚ) +
          max 0 (min 100 50) * (4 / 10 : ℚ)))) := rfl
    rw [hrfl]
    norm_num
  · have hcond : scanTokenMatches (jsToLower "accident")
        (generateTargetVariations "accident") (jsTrim (jsToLower "accident")) = true := by
      decide
    have hscan : scanMaxProbability (jsToLower "accident")
        (generateTargetVariations "accident") [⟨some [⟨"accident", 2 / 5⟩]⟩] =
        max 0 (2 / 5 : ℚ) := by
      simp only [scanMaxProbability, List.foldl_cons, List.foldl_nil]
      rw [hcond]
      simp
    have hrfl : estimateTargetProbabilityRun (.ok (some [⟨some [⟨"accident", 2 / 5⟩]⟩]))
        (.ok (some 80)) "accident" =
        .ok (max 0 (min 100 (scanMaxProbability (jsToLower "accident")
          (generateTargetVariations "accident") [⟨some [⟨"accident", 2 / 5⟩]⟩] * 200 *
            (6 / 10 : ℚ) + max 0 (min 100 80) * (4 / 10 : ℚ)))) := rfl
    rw [hrfl, hscan]
    norm_num
  · intro n1 n2 t h
    have hrfl : estimateTargetProbabilityRun n1 n2 t =
        .ok (max 0 (min 100 (checkLogprobsForTargetRun n1 t * (6 / 10 : ℚ) +
          getLLMProbabilityEstimateRun n2 * (4 / 10 : ℚ)))) := rfl
    rw [hrfl, clampQ_high _ (le_of_lt h)]
  · intro l m h
    exact clampQ_low _ (le_of_lt h)
  · intro n1 n2 t q h
    have hrfl : estimateTargetProbabilityRun n1 n2 t =
        .ok (max 0 (min 100 (checkLogprobsForTargetRun n1 t * (6 / 10 : ℚ) +
          getLLMProbabilityEstimateRun n2 * (4 / 10 : ℚ)))) := rfl
    rw [hrfl] at h
    cases h
    exact clampQ_bounds _

/-- C7 witness: a matching candidate of linear probability 1 with a failed
model-estimate call gives weighted sum 120, clamped to 100; signal values
summing below 0 clamp to 0; and the value produced for concrete inputs
(20) lies within [0, 100]. -/
theorem estimator_combines_and_clamps_witness :
    estimateTargetProbabilityRun (.ok (some [⟨some [⟨"accident", 1⟩]⟩]))
      (.error .rateLimit) "accident" = .ok 100 ∧
    max 0 (min 100 ((-200 : ℚ) * (6 / 10 : ℚ) + 0 * (4 / 10 : ℚ))) = 0 ∧
    (0 ≤ (20 : ℚ) ∧ (20 : ℚ) ≤ 100) := by
  have hcond : scanTokenMatches (jsToLower "accident")
      (generateTargetVariations "accident") (jsTrim (jsToLower "accident")) = true := by
    decide
  have hscan : scanMaxProbability (jsToLower "accident")
      (generateTargetVariations "accident") [⟨some [⟨"accident", 1⟩]⟩] =
      max 0 (1 : ℚ) := by
    simp only [scanMaxProbability, List.foldl_cons, List.foldl_nil]
    rw [hcond]
    simp
  have hcheck : checkLogprobsForTargetRun (.ok (some [⟨some [⟨"accident", 1⟩]⟩]))
      "accident" = max 0 (1 : ℚ) * 200 := by
    have h0 : checkLogprobsForTargetRun (.ok (some [⟨some [⟨"accident", 1⟩]⟩]))
        "accident" = scanMaxProbability (jsToLower "accident")
          (generateTargetVariations "accident") [⟨some [⟨"accident", 1⟩]⟩] * 200 := rfl
    rw [h0, hscan]
  refine ⟨?_, ?_, ?_⟩
  · refine estimator_combines_and_clamps.2.2.2.1 _ _ _ ?_
    rw [hcheck]
    norm_num [getLLMProbabilityEstimateRun]
  · exact estimator_combines_and_clamps.2.2.2.2.1 (-200) 0 (by norm_num)
  · exact estimator_combines_and_clamps.2.2.2.2.2 (.ok none) (.ok (some 50)) "accident" 20
      estimator_combines_and_clamps.2.1

/-! ## Logprob-presence signal: fold/maximum equivalence -/

theorem foldrMax_nonneg (l : List ℚ) : 0 ≤ l.foldr max 0 := by
  induction l with
  | nil => simp
  | cons x xs ih => exact le_trans ih (le_max_right x _)

theorem foldrMax_append (A B : List ℚ) :
    (A ++ B).foldr max 0 = max (A.foldr max 0) (B.foldr max 0) := by
  induction A with
  | nil => simp [max_eq_right (foldrMax_nonneg B)]
  | cons a A ih =>
    simp only [List.cons_append, List.foldr_cons, ih]
    exact (max_assoc a _ _).symm

theorem scanTokenMatches_spec (target tok : String) :
    scanTokenMatches (jsToLower target) (generateTargetVariations target)
      (jsTrim (jsToLower tok)) = specMatches target tok := by
  unfold scanTokenMatches specMatches generateTargetVariations
  set token := jsTrim (jsToLower tok) with htok
  by_cases h : token == jsToLower target
  · have heq : token = jsToLower target := by
      exact eq_of_beq h
    simp only [h, Bool.true_or]
    rw [heq]
    simp [strIncludes_self]
  · simp only [h, Bool.false_or]
    simp [List.any_cons]

theorem innerScan_eq (tl : String) (vars : List String) :
    ∀ (items : List ScanItem) (acc : ℚ), 0 ≤ acc →
      items.foldl
        (fun acc2 item =>
          let token := jsTrim (jsToLower item.token)
          if scanTokenMatches tl vars token then max acc2 item.prob else acc2)
        acc
      = max acc
          (((items.filter
              (fun it => scanTokenMatches tl vars (jsTrim (jsToLower it.token)))).map
            (fun it => it.prob)).foldr max 0) := by
  intro items
  induction items with
  | nil =>
    intro acc hacc
    simp [max_eq_left hacc]
  | cons it rest ih =>
    intro acc hacc
    simp only [List.foldl_cons]
    by_cases h : scanTokenMatches tl vars (jsTrim (jsToLower it.token))
    · have hstep :
          (let token := jsTrim (jsToLower it.token)
           if scanTokenMatches tl vars token then max acc it.prob else acc) =
            max acc it.prob := by
        simp [h]
      rw [hstep, ih (max acc it.prob) (le_trans hacc (le_max_left _ _))]
      simp only [List.filter_cons, h, if_true, List.map_cons, List.foldr_cons]
      rw [max_assoc, max_comm it.prob, ← max_assoc]
    · have hstep :
          (let token := jsTrim (jsToLower it.token)
           if scanTokenMatches tl vars token then max acc it.prob else acc) = acc := by
        simp [h]
      rw [hstep, ih acc hacc]
      simp only [List.filter_cons, h, if_false]
      simp [h]

theorem outerScan_eq (tl : String) (vars : List String) :
    ∀ (content : List ScanPosition) (acc : ℚ), 0 ≤ acc →
      content.foldl
        (fun acc tokenData =>
          match tokenData.topLogprobs with
          | none => acc
          | some items =>
            items.foldl
              (fun acc2 item =>
                let token := jsTrim (jsToLower item.token)
                if scanTokenMatches tl vars token then max acc2 item.prob else acc2)
              acc)
        acc
      = max acc
          ((((content.filterMap (fun p => p.topLogprobs)).flatten.filter
              (fun it => scanTokenMatches tl vars (jsTrim (jsToLower it.token)))).map
            (fun it => it.prob)).foldr max 0) := by
  intro content
  induction content with
  | nil =>
    intro acc hacc
    simp [max_eq_left hacc]
  | cons pos rest ih =>
    intro acc hacc
    simp only [List.foldl_cons]
    cases hpos : pos.topLogprobs with
    | none =>
      refine (ih acc hacc).trans ?_
      simp [List.filterMap_cons, hpos]
    | some items =>
      have h1 := innerScan_eq tl vars items acc hacc
      have hnn : 0 ≤ List.foldl
          (fun acc2 item =>
            let token := jsTrim (jsToLower item.token)
            if scanTokenMatches tl vars token then max acc2 item.prob else acc2)
          acc items := by
        rw [h1]
        exact le_trans hacc (le_max_left _ _)
      refine (ih _ hnn).trans ?_
      rw [h1]
      have hflat : ((pos :: rest).filterMap (fun p => p.topLogprobs)).flatten =
          items ++ (rest.filterMap (fun p => p.topLogprobs)).flatten := by
        simp [List.filterMap_cons, hpos]
      rw [hflat, List.filter_append, List.map_append, foldrMax_append, max_assoc]

/-- C9: for every continuation response carrying per-position top-k data,
the logprob-presence signal equals 200 times the maximum linear probability
over all positions and candidates whose trimmed, lowercased token text
equals or contains as a substring the lowercased target or any of its
precomputed variations (the target plus the suffixes s/ed/ing/ly plus the
fixed per-target synonym list); a failed request or a response without
logprob content yields signal 0. -/
theorem logprob_signal_matches_spec (target : String) :
    (∀ content : List ScanPosition,
      checkLogprobsForTargetRun (.ok (some content)) target =
        logprobSignalSpec content target) ∧
    (∀ e, checkLogprobsForTargetRun (.error e) target = 0) ∧
    checkLogprobsForTargetRun (.ok none) target = 0 := by
  refine ⟨?_, fun e => rfl, rfl⟩
  intro content
  have h2 : scanMaxProbability (jsToLower target) (generateTargetVariations target) content =
      max 0 ((((content.filterMap (fun p => p.topLogprobs)).flatten.filter
          (fun it => scanTokenMatches (jsToLower target) (generateTargetVariations target)
            (jsTrim (jsToLower it.token)))).map (fun it => it.prob)).foldr max 0) :=
    outerScan_eq _ _ content 0 le_rfl
  have hfilter : ((content.filterMap (fun p => p.topLogprobs)).flatten.filter
        (fun it => scanTokenMatches (jsToLower target) (generateTargetVariations target)
          (jsTrim (jsToLower it.token)))) =
      ((content.filterMap (fun p => p.topLogprobs)).flatten.filter
        (fun it => specMatches target it.token)) :=
    List.filter_congr (fun x _ => scanTokenMatches_spec target x.token)
  have h3 : checkLogprobsForTargetRun (.ok (some content)) target =
      scanMaxProbability (jsToLower target) (generateTargetVariations target) content * 200 :=
    rfl
  rw [h3, h2, hfilter]
  have h4 := foldrMax_nonneg (((content.filterMap (fun p => p.topLogprobs)).flatten.filter
      (fun it => specMatches target it.token)).map (fun it => it.prob))
  rw [max_eq_right h4]
  unfold logprobSignalSpec allMatchingProbs
  rw [mul_comm]

/-! ## Normalizer lemmas -/

theorem assignRanksFrom_length (i : ℕ) (l : List TokenCandidate) :
    (assignRanksFrom i l).length = l.length := by
  induction l generalizing i with
  | nil => rfl
  | cons e rest ih => simp [assignRanksFrom, ih]

theorem assignRanksFrom_map_token (i : ℕ) (l : List TokenCandidate) :
    (assignRanksFrom i l).map (fun c => c.token) = l.map (fun c => c.token) := by
  induction l generalizing i with
  | nil => rfl
  | cons e rest ih => simp [assignRanksFrom, ih]

theorem assignRanksFrom_map_isChosen (i : ℕ) (l : List TokenCandidate) :
    (assignRanksFrom i l).map (fun c => c.isChosen) = l.map (fun c => c.isChosen) := by
  induction l generalizing i with
  | nil => rfl
  | cons e rest ih => simp [assignRanksFrom, ih]

theorem assignRanksFrom_map_rank (i : ℕ) (l : List TokenCandidate) :
    (assignRanksFrom i l).map (fun c => c.rank) = List.range' (i + 1) l.length := by
  induction l generalizing i with
  | nil => rfl
  | cons e rest ih =>
    simp only [assignRanksFrom, List.map_cons, List.length_cons, List.range'_succ]
    exact congrArg (List.cons (i + 1)) (ih (i + 1))

theorem assignRanks_map_token (l : List TokenCandidate) :
    (assignRanks l).map (fun c => c.token) = l.map (fun c => c.token) :=
  assignRanksFrom_map_token 0 l

theorem assignRanksFrom_countP_isChosen (i : ℕ) (l : List TokenCandidate) :
    (assignRanksFrom i l).countP (fun c => c.isChosen) =
      l.countP (fun c => c.isChosen) := by
  induction l generalizing i with
  | nil => rfl
  | cons e rest ih =>
    simp [assignRanksFrom, List.countP_cons, ih]

theorem assignRanksFrom_mem (i : ℕ) (l : List TokenCandidate) (c : TokenCandidate)
    (h : c ∈ assignRanksFrom i l) :
    ∃ c' ∈ l, c.token = c'.token ∧ c.isChosen = c'.isChosen ∧
      c.originalToken = c'.originalToken ∧ c.logprob = c'.logprob := by
  induction l generalizing i with
  | nil => simp [assignRanksFrom] at h
  | cons e rest ih =>
    simp only [assignRanksFrom, List.mem_cons] at h
    rcases h with h | h
    · exact ⟨e, List.mem_cons_self e rest, by simp [h]⟩
    · obtain ⟨c', hc', hp⟩ := ih (i + 1) h
      exact ⟨c', List.mem_cons_of_mem e hc', hp⟩

theorem toPreDedup_mem (i : ℕ) (l : List RawLogprobItem) (e : PreDedupEntry)
    (h : e ∈ toPreDedup i l) : ∃ raw ∈ l, e.token = raw.token := by
  induction l generalizing i with
  | nil => simp [toPreDedup] at h
  | cons x rest ih =>
    simp only [toPreDedup, List.mem_cons] at h
    rcases h with h | h
    · exact ⟨x, List.mem_cons_self x rest, by simp [h]⟩
    · obtain ⟨raw, hraw, hp⟩ := ih (i + 1) h
      exact ⟨raw, List.mem_cons_of_mem x hraw, hp⟩

theorem insertByLogprob_perm (x : PreDedupEntry) (l : List PreDedupEntry) :
    (insertByLogprob x l).Perm (x :: l) := by
  induction l with
  | nil => exact List.Perm.refl _
  | cons y ys ih =>
    unfold insertByLogprob
    by_cases h : x.logprob < y.logprob
    · simp only [h, if_true]
      exact (List.Perm.cons y ih).trans (List.Perm.swap x y ys)
    · simp only [h, if_false]
      exact List.Perm.refl _

theorem sortByProbDesc_perm (l : List PreDedupEntry) : (sortByProbDesc l).Perm l := by
  induction l with
  | nil => exact List.Perm.refl _
  | cons x xs ih =>
    exact (insertByLogprob_perm x (sortByProbDesc xs)).trans (List.Perm.cons x ih)

theorem dedupLoop_mem (ct : String) :
    ∀ (l : List PreDedupEntry) (seen : List String) (c : TokenCandidate),
      c ∈ dedupLoop ct l seen →
      c.token ∉ seen ∧ jsTrim c.token = c.token ∧ c.token ≠ "" ∧
        c.isChosen = (c.token == ct) ∧ ∃ item ∈ l, c.token = jsTrim item.token := by
  intro l
  induction l with
  | nil => intro seen c h; simp [dedupLoop] at h
  | cons item rest ih =>
    intro seen c h
    by_cases h1 : jsTrim item.token = ""
    · rw [show dedupLoop ct (item :: rest) seen = dedupLoop ct rest seen by
        simp [dedupLoop, h1]] at h
      obtain ⟨hs, ht, hne, hch, it, hit, heq⟩ := ih seen c h
      exact ⟨hs, ht, hne, hch, it, List.mem_cons_of_mem item hit, heq⟩
    · by_cases h2 : jsTrim item.token ∈ seen
      · rw [show dedupLoop ct (item :: rest) seen = dedupLoop ct rest seen by
          simp [dedupLoop, h1, h2]] at h
        obtain ⟨hs, ht, hne, hch, it, hit, heq⟩ := ih seen c h
        exact ⟨hs, ht, hne, hch, it, List.mem_cons_of_mem item hit, heq⟩
      · rw [show dedupLoop ct (item :: rest) seen =
            { token := jsTrim item.token, originalToken := item.token,
              logprob := item.logprob, rank := 0,
              isChosen := jsTrim item.token == ct } ::
            dedupLoop ct rest (jsTrim item.token :: seen) by
          simp [dedupLoop, h1, h2]] at h
        rcases List.mem_cons.mp h with h | h
        · subst h
          refine ⟨h2, jsTrim_idem item.token, h1, rfl,
            item, List.mem_cons_self item rest, rfl⟩
        · obtain ⟨hs, ht, hne, hch, it, hit, heq⟩ :=
            ih (jsTrim item.token :: seen) c h
          refine ⟨fun hmem => hs (List.mem_cons_of_mem _ hmem), ht, hne, hch,
            it, List.mem_cons_of_mem item hit, heq⟩

theorem dedupLoop_nodup (ct : String) :
    ∀ (l : List PreDedupEntry) (seen : List String),
      ((dedupLoop ct l seen).map (fun c => c.token)).Nodup := by
  intro l
  induction l with
  | nil => intro seen; simp [dedupLoop]
  | cons item rest ih =>
    intro seen
    by_cases h1 : jsTrim item.token = ""
    · rw [show dedupLoop ct (item :: rest) seen = dedupLoop ct rest seen by
        simp [dedupLoop, h1]]
      exact ih seen
    · by_cases h2 : jsTrim item.token ∈ seen
      · rw [show dedupLoop ct (item :: rest) seen = dedupLoop ct rest seen by
          simp [dedupLoop, h1, h2]]
        exact ih seen
      · rw [show dedupLoop ct (item :: rest) seen =
            { token := jsTrim item.token, originalToken := item.token,
              logprob := item.logprob, rank := 0,
              isChosen := jsTrim item.token == ct } ::
            dedupLoop ct rest (jsTrim item.token :: seen) by
          simp [dedupLoop, h1, h2]]
        simp only [List.map_cons, List.nodup_cons]
        constructor
        · intro hmem
          obtain ⟨c, hc, hct⟩ := List.mem_map.mp hmem
          have hprops := dedupLoop_mem ct rest (jsTrim item.token :: seen) c hc
          exact hprops.1 (hct ▸ List.mem_cons_self _ _)
        · exact ih (jsTrim item.token :: seen)

theorem dedupLoop_countP_le_one (ct : String) (l : List PreDedupEntry)
    (seen : List String) :
    (dedupLoop ct l seen).countP (fun c => c.isChosen) ≤ 1 := by
  have hcongr : (dedupLoop ct l seen).countP (fun c => c.isChosen) =
      (dedupLoop ct l seen).countP (fun c => c.token == ct) :=
    List.countP_congr (fun c hc => by rw [(dedupLoop_mem ct l seen c hc).2.2.2.1])
  have hcount : (dedupLoop ct l seen).countP (fun c => c.token == ct) =
      ((dedupLoop ct l seen).map (fun c => c.token)).count ct := by
    rw [List.count_eq_countP, List.countP_map]
    rfl
  rw [hcongr, hcount]
  exact List.nodup_iff_count_le_one.mp (dedupLoop_nodup ct l seen) ct

theorem toPreDedup_mem_full (i : ℕ) (l : List RawLogprobItem) (e : PreDedupEntry)
    (h : e ∈ toPreDedup i l) :
    ∃ raw ∈ l, e.token = raw.token ∧ e.logprob = raw.logprob := by
  induction l generalizing i with
  | nil => simp [toPreDedup] at h
  | cons x rest ih =>
    simp only [toPreDedup, List.mem_cons] at h
    rcases h with h | h
    · exact ⟨x, List.mem_cons_self x rest, by simp [h], by simp [h]⟩
    · obtain ⟨raw, hraw, hp1, hp2⟩ := ih (i + 1) h
      exact ⟨raw, List.mem_cons_of_mem x hraw, hp1, hp2⟩

theorem mem_toPreDedup (i : ℕ) (l : List RawLogprobItem) (raw : RawLogprobItem)
    (h : raw ∈ l) :
    ∃ e ∈ toPreDedup i l, e.token = raw.token ∧ e.logprob = raw.logprob := by
  induction l generalizing i with
  | nil => simp at h
  | cons x rest ih =>
    rcases List.mem_cons.mp h with h | h
    · exact ⟨⟨x.token, x.logprob, i + 1⟩, List.mem_cons_self _ _, by simp [h], by simp [h]⟩
    · obtain ⟨e, he, hp1, hp2⟩ := ih (i + 1) h
      exact ⟨e, List.mem_cons_of_mem _ he, hp1, hp2⟩

theorem mem_insertByLogprob (x : PreDedupEntry) (l : List PreDedupEntry)
    (z : PreDedupEntry) : z ∈ insertByLogprob x l ↔ z = x ∨ z ∈ l := by
  rw [(insertByLogprob_perm x l).mem_iff]
  simp

theorem insertByLogprob_pairwise (x : PreDedupEntry) (l : List PreDedupEntry)
    (h : l.Pairwise (fun a b => b.logprob ≤ a.logprob)) :
    (insertByLogprob x l).Pairwise (fun a b => b.logprob ≤ a.logprob) := by
  induction l with
  | nil => simp [insertByLogprob]
  | cons y ys ih =>
    rw [List.pairwise_cons] at h
    unfold insertByLogprob
    by_cases hlt : x.logprob < y.logprob
    · rw [if_pos hlt, List.pairwise_cons]
      refine ⟨?_, ih h.2⟩
      intro z hz
      rcases (mem_insertByLogprob x ys z).mp hz with hz | hz
      · rw [hz]
        exact le_of_lt hlt
      · exact h.1 z hz
    · rw [if_neg hlt, List.pairwise_cons]
      refine ⟨?_, List.pairwise_cons.mpr h⟩
      intro z hz
      rcases List.mem_cons.mp hz with hz | hz
      · rw [hz]
        exact not_lt.mp hlt
      · exact le_trans (h.1 z hz) (not_lt.mp hlt)

theorem sortByProbDesc_pairwise (l : List PreDedupEntry) :
    (sortByProbDesc l).Pairwise (fun a b => b.logprob ≤ a.logprob) := by
  induction l with
  | nil => simp [sortByProbDesc]
  | cons x xs ih => exact insertByLogprob_pairwise x (sortByProbDesc xs) ih

theorem dedupLoop_src (ct : String) :
    ∀ (l : List PreDedupEntry) (seen : List String) (c : TokenCandidate),
      c ∈ dedupLoop ct l seen →
      ∃ item ∈ l, c.token = jsTrim item.token ∧ c.originalToken = item.token ∧
        c.logprob = item.logprob := by
  intro l
  induction l with
  | nil => intro seen c h; simp [dedupLoop] at h
  | cons item rest ih =>
    intro seen c h
    by_cases h1 : jsTrim item.token = ""
    · rw [show dedupLoop ct (item :: rest) seen = dedupLoop ct rest seen by
        simp [dedupLoop, h1]] at h
      obtain ⟨it, hit, hp⟩ := ih seen c h
      exact ⟨it, List.mem_cons_of_mem item hit, hp⟩
    · by_cases h2 : jsTrim item.token ∈ seen
      · rw [show dedupLoop ct (item :: rest) seen = dedupLoop ct rest seen by
          simp [dedupLoop, h1, h2]] at h
        obtain ⟨it, hit, hp⟩ := ih seen c h
        exact ⟨it, List.mem_cons_of_mem item hit, hp⟩
      · rw [show dedupLoop ct (item :: rest) seen =
            { token := jsTrim item.token, originalToken := item.token,
              logprob := item.logprob, rank := 0,
              isChosen := jsTrim item.token == ct } ::
            dedupLoop ct rest (jsTrim item.token :: seen) by
          simp [dedupLoop, h1, h2]] at h
        rcases List.mem_cons.mp h with h | h
        · subst h
          exact ⟨item, List.mem_cons_self item rest, rfl, rfl, rfl⟩
        · obtain ⟨it, hit, hp⟩ := ih (jsTrim item.token :: seen) c h
          exact ⟨it, List.mem_cons_of_mem item hit, hp⟩

theorem dedupLoop_max (ct : String) :
    ∀ (l : List PreDedupEntry) (seen : List String),
      l.Pairwise (fun a b => b.logprob ≤ a.logprob) →
      ∀ c ∈ dedupLoop ct l seen, ∀ item ∈ l,
        jsTrim item.token = c.token → item.logprob ≤ c.logprob := by
  intro l
  induction l with
  | nil => intro seen _ c hc; simp [dedupLoop] at hc
  | cons item rest ih =>
    intro seen hsorted c hc it hit htrim
    rw [List.pairwise_cons] at hsorted
    by_cases h1 : jsTrim item.token = ""
    · rw [show dedupLoop ct (item :: rest) seen = dedupLoop ct rest seen by
        simp [dedupLoop, h1]] at hc
      rcases List.mem_cons.mp hit with h | h
      · exfalso
        have hne := (dedupLoop_mem ct rest seen c hc).2.2.1
        rw [h, h1] at htrim
        exact hne htrim.symm
      · exact ih seen hsorted.2 c hc it h htrim
    · by_cases h2 : jsTrim item.token ∈ seen
      · rw [show dedupLoop ct (item :: rest) seen = dedupLoop ct rest seen by
          simp [dedupLoop, h1, h2]] at hc
        rcases List.mem_cons.mp hit with h | h
        · exfalso
          have hnot := (dedupLoop_mem ct rest seen c hc).1
          rw [← h, htrim] at h2
          exact hnot h2
        · exact ih seen hsorted.2 c hc it h htrim
      · rw [show dedupLoop ct (item :: rest) seen =
            { token := jsTrim item.token, originalToken := item.token,
              logprob := item.logprob, rank := 0,
              isChosen := jsTrim item.token == ct } ::
            dedupLoop ct rest (jsTrim item.token :: seen) by
          simp [dedupLoop, h1, h2]] at hc
        rcases List.mem_cons.mp hc with hc | hc
        · rcases List.mem_cons.mp hit with h | h
          · rw [h, hc]
          · rw [hc]
            exact hsorted.1 it h
        · rcases List.mem_cons.mp hit with h | h
          · exfalso
            have hnot := (dedupLoop_mem ct rest (jsTrim item.token :: seen) c hc).1
            rw [h] at htrim
            refine hnot ?_
            rw [← htrim]
            exact List.mem_cons_self _ _
          · exact ih (jsTrim item.token :: seen) hsorted.2 c hc it h htrim

theorem dedupLoop_covers (ct : String) :
    ∀ (l : List PreDedupEntry) (seen : List String) (t : String), t ≠ "" →
      t ∉ seen → (∃ item ∈ l, jsTrim item.token = t) →
      ∃ c ∈ dedupLoop ct l seen, c.token = t := by
  intro l
  induction l with
  | nil =>
    intro seen t _ _ hex
    simp at hex
  | cons item rest ih =>
    intro seen t htne htseen hex
    by_cases h1 : jsTrim item.token = ""
    · rw [show dedupLoop ct (item :: rest) seen = dedupLoop ct rest seen by
        simp [dedupLoop, h1]]
      obtain ⟨it, hit, htr⟩ := hex
      rcases List.mem_cons.mp hit with h | h
      · exfalso
        rw [h, h1] at htr
        exact htne htr.symm
      · exact ih seen t htne htseen ⟨it, h, htr⟩
    · by_cases h2 : jsTrim item.token ∈ seen
      · rw [show dedupLoop ct (item :: rest) seen = dedupLoop ct rest seen by
          simp [dedupLoop, h1, h2]]
        obtain ⟨it, hit, htr⟩ := hex
        rcases List.mem_cons.mp hit with h | h
        · exfalso
          rw [h] at htr
          rw [htr] at h2
          exact htseen h2
        · exact ih seen t htne htseen ⟨it, h, htr⟩
      · rw [show dedupLoop ct (item :: rest) seen =
            { token := jsTrim item.token, originalToken := item.token,
              logprob := item.logprob, rank := 0,
              isChosen := jsTrim item.token == ct } ::
            dedupLoop ct rest (jsTrim item.token :: seen) by
          simp [dedupLoop, h1, h2]]
        by_cases hhead : jsTrim item.token = t
        · exact ⟨_, List.mem_cons_self _ _, hhead⟩
        · obtain ⟨it, hit, htr⟩ := hex
          rcases List.mem_cons.mp hit with h | h
          · exfalso
            rw [h] at htr
            exact hhead htr
          · obtain ⟨c, hc, hct⟩ := ih (jsTrim item.token :: seen) t htne
              (by
                intro hmem
                rcases List.mem_cons.mp hmem with hm | hm
                · exact hhead hm.symm
                · exact htseen hm)
              ⟨it, h, htr⟩
            exact ⟨c, List.mem_cons_of_mem _ hc, hct⟩

theorem pipeline_max (ct : String) (top : List RawLogprobItem) (c : TokenCandidate)
    (hc : c ∈ dedupLoop ct (sortByProbDesc (toPreDedup 0 top)) []) :
    ∀ raw ∈ top, jsTrim raw.token = c.token → raw.logprob ≤ c.logprob := by
  intro raw hraw htrim
  obtain ⟨e, he, het, hel⟩ := mem_toPreDedup 0 top raw hraw
  have he' : e ∈ sortByProbDesc (toPreDedup 0 top) :=
    (sortByProbDesc_perm (toPreDedup 0 top)).mem_iff.mpr he
  have h := dedupLoop_max ct (sortByProbDesc (toPreDedup 0 top)) []
    (sortByProbDesc_pairwise (toPreDedup 0 top)) c hc e he'
    (by rw [het]; exact htrim)
  rw [← hel]
  exact h

theorem pipeline_src (ct : String) (top : List RawLogprobItem) (c : TokenCandidate)
    (hc : c ∈ dedupLoop ct (sortByProbDesc (toPreDedup 0 top)) []) :
    ∃ raw ∈ top, c.token = jsTrim raw.token ∧ c.originalToken = raw.token ∧
      c.logprob = raw.logprob := by
  obtain ⟨item, hitem, h1, h2, h3⟩ :=
    dedupLoop_src ct (sortByProbDesc (toPreDedup 0 top)) [] c hc
  have hitem' : item ∈ toPreDedup 0 top :=
    (sortByProbDesc_perm (toPreDedup 0 top)).mem_iff.mp hitem
  obtain ⟨raw, hraw, ht, hl⟩ := toPreDedup_mem_full 0 top item hitem'
  exact ⟨raw, hraw, by rw [h1, ht], by rw [h2, ht], by rw [h3, hl]⟩

theorem pipeline_covers (ct : String) (top : List RawLogprobItem) (t : String)
    (htne : t ≠ "") (hex : ∃ raw ∈ top, jsTrim raw.token = t) :
    ∃ c ∈ dedupLoop ct (sortByProbDesc (toPreDedup 0 top)) [], c.token = t := by
  obtain ⟨raw, hraw, htr⟩ := hex
  obtain ⟨e, he, het, _⟩ := mem_toPreDedup 0 top raw hraw
  have he' : e ∈ sortByProbDesc (toPreDedup 0 top) :=
    (sortByProbDesc_perm (toPreDedup 0 top)).mem_iff.mpr he
  exact dedupLoop_covers ct (sortByProbDesc (toPreDedup 0 top)) [] t htne
    (by simp) ⟨e, he', by rw [het]; exact htr⟩

theorem dedup_pipeline_mem (ct : String) (top : List RawLogprobItem) (c : TokenCandidate)
    (hc : c ∈ dedupLoop ct (sortByProbDesc (toPreDedup 0 top)) []) :
    jsTrim c.token = c.token ∧ c.token ≠ "" ∧ c.isChosen = (c.token == ct) ∧
      ∃ raw ∈ top, c.token = jsTrim raw.token := by
  obtain ⟨_, ht, hne, hch, item, hitem, heq⟩ := dedupLoop_mem ct _ [] c hc
  have hitem' : item ∈ toPreDedup 0 top :=
    (sortByProbDesc_perm (toPreDedup 0 top)).mem_iff.mp hitem
  obtain ⟨raw, hraw, heq2⟩ := toPreDedup_mem 0 top item hitem'
  exact ⟨ht, hne, hch, raw, hraw, by rw [heq, heq2]⟩

theorem getNextTokenDistributionRun_eq (chosenTokenRaw : String) (chosenLogprob : Option ℚ)
    (top : List RawLogprobItem) :
    getNextTokenDistributionRun chosenTokenRaw chosenLogprob top =
      (if ((assignRanks (dedupLoop (jsTrim chosenTokenRaw)
            (sortByProbDesc (toPreDedup 0 top)) [])).find?
              (fun t => t.isChosen)).isSome then
        ⟨jsTrim chosenTokenRaw, chosenTokenRaw,
          assignRanks (dedupLoop (jsTrim chosenTokenRaw)
            (sortByProbDesc (toPreDedup 0 top)) [])⟩
      else
        ⟨jsTrim chosenTokenRaw, chosenTokenRaw,
          assignRanks
            ({ token := jsTrim chosenTokenRaw, originalToken := chosenTokenRaw,
               logprob := chosenLogprob.getD 0, rank := 1, isChosen := true } ::
              assignRanks (dedupLoop (jsTrim chosenTokenRaw)
                (sortByProbDesc (toPreDedup 0 top)) []))⟩) := rfl

/-- C4: for every chosen token and raw top-k list, the normalized
distribution contains exactly one candidate with `isChosen = true`; in
particular, when no raw entry's trimmed text equals the trimmed chosen
token, the distribution starts with a synthesized rank-1 entry built from
the chosen token, its own log-probability (`firstTokenData.logprob || 0`,
i.e. 0 when unavailable) and `isChosen = true`. -/
theorem normalizer_exactly_one_chosen (chosenTokenRaw : String) (chosenLogprob : Option ℚ)
    (topLogprobs : List RawLogprobItem) :
    (getNextTokenDistributionRun chosenTokenRaw chosenLogprob topLogprobs).distribution.countP
      (fun c => c.isChosen) = 1 ∧
    ((∀ item ∈ topLogprobs, jsTrim item.token ≠ jsTrim chosenTokenRaw) →
      (getNextTokenDistributionRun chosenTokenRaw chosenLogprob topLogprobs).distribution.head? =
        some { token := jsTrim chosenTokenRaw, originalToken := chosenTokenRaw,
               logprob := chosenLogprob.getD 0, rank := 1, isChosen := true }) := by
  have hcount0 :
      (assignRanks (dedupLoop (jsTrim chosenTokenRaw)
        (sortByProbDesc (toPreDedup 0 topLogprobs)) [])).countP (fun c => c.isChosen) =
      (dedupLoop (jsTrim chosenTokenRaw)
        (sortByProbDesc (toPreDedup 0 topLogprobs)) []).countP (fun c => c.isChosen) :=
    assignRanksFrom_countP_isChosen 0 _
  by_cases hfind : ((assignRanks (dedupLoop (jsTrim chosenTokenRaw)
      (sortByProbDesc (toPreDedup 0 topLogprobs)) [])).find? (fun t => t.isChosen)).isSome
  · rw [getNextTokenDistributionRun_eq, if_pos hfind]
    dsimp only
    constructor
    · refine le_antisymm ?_ ?_
      · rw [hcount0]
        exact dedupLoop_countP_le_one _ _ _
      · obtain ⟨x, hx, hpx⟩ := List.find?_isSome.mp hfind
        exact List.countP_pos_iff.mpr ⟨x, hx, hpx⟩
    · intro hNo
      exfalso
      obtain ⟨x, hx, hpx⟩ := List.find?_isSome.mp hfind
      obtain ⟨c', hc', htok, hch, _, _⟩ := assignRanksFrom_mem 0 _ x hx
      have hprops := dedup_pipeline_mem _ _ c' hc'
      have hchosen : c'.isChosen = true := by rw [← hch]; exact hpx
      have htokct : c'.token = jsTrim chosenTokenRaw := by
        have hbeq : (c'.token == jsTrim chosenTokenRaw) = true := by
          rw [← hprops.2.2.1]
          exact hchosen
        exact eq_of_beq hbeq
      obtain ⟨raw, hraw, heq⟩ := hprops.2.2.2
      exact hNo raw hraw (by rw [← heq, htokct])
  · rw [getNextTokenDistributionRun_eq, if_neg hfind]
    dsimp only
    have hzero : (assignRanks (dedupLoop (jsTrim chosenTokenRaw)
        (sortByProbDesc (toPreDedup 0 topLogprobs)) [])).countP (fun c => c.isChosen) = 0 := by
      rw [List.countP_eq_zero]
      intro a ha hpa
      exact hfind (List.find?_isSome.mpr ⟨a, ha, hpa⟩)
    constructor
    · have h1 : (assignRanks
          ({ token := jsTrim chosenTokenRaw, originalToken := chosenTokenRaw,
             logprob := chosenLogprob.getD 0, rank := 1, isChosen := true } ::
            assignRanks (dedupLoop (jsTrim chosenTokenRaw)
              (sortByProbDesc (toPreDedup 0 topLogprobs)) []))).countP
            (fun c => c.isChosen) =
          ({ token := jsTrim chosenTokenRaw, originalToken := chosenTokenRaw,
             logprob := chosenLogprob.getD 0, rank := 1, isChosen := true } ::
            assignRanks (dedupLoop (jsTrim chosenTokenRaw)
              (sortByProbDesc (toPreDedup 0 topLogprobs)) [])).countP
            (fun c => c.isChosen) :=
        assignRanksFrom_countP_isChosen 0 _
      rw [h1, List.countP_cons, hzero]
      simp
    · intro _
      rfl

/-- C4 witness: with chosen token " xyz" (log-probability unavailable) and
a top-k list containing only " and", the chosen token is absent after
deduplication, so a rank-1 entry is synthesized from the chosen token with
probability derived from log-probability 0, and exactly one candidate is
marked chosen. -/
theorem normalizer_exactly_one_chosen_witness :
    (getNextTokenDistributionRun " xyz" none [⟨" and", -1⟩]).distribution.countP
      (fun c => c.isChosen) = 1 ∧
    (getNextTokenDistributionRun " xyz" none [⟨" and", -1⟩]).distribution.head? =
      some { token := jsTrim " xyz", originalToken := " xyz",
             logprob := (none : Option ℚ).getD 0, rank := 1, isChosen := true } :=
  ⟨(normalizer_exactly_one_chosen " xyz" none [⟨" and", -1⟩]).1,
   (normalizer_exactly_one_chosen " xyz" none [⟨" and", -1⟩]).2 (by decide)⟩

/-- C3 (amended): for every chosen token and raw top-k list, the
normalized distribution has pairwise distinct trimmed texts, keeping the
highest-probability occurrence of each trimmed text (every input
occurrence of a candidate's trimmed text has log-probability — hence
linear probability, `Math.exp` being strictly increasing — at most the
candidate's, and the kept candidate's original token and log-probability
are those of one such occurrence whenever any exists), and ranks exactly
1..N; and provided the chosen token does not trim to the empty string, no
candidate's trimmed text is empty.  (When the chosen token trims to
empty, the synthesized chosen entry itself has empty trimmed text — see
the counterexample.) -/
theorem normalizer_dedup_and_ranks (chosenTokenRaw : String) (chosenLogprob : Option ℚ)
    (topLogprobs : List RawLogprobItem) :
    ((getNextTokenDistributionRun chosenTokenRaw chosenLogprob topLogprobs).distribution.map
      (fun c => jsTrim c.token)).Nodup ∧
    (getNextTokenDistributionRun chosenTokenRaw chosenLogprob topLogprobs).distribution.map
      (fun c => c.rank) =
      List.range' 1
        (getNextTokenDistributionRun chosenTokenRaw chosenLogprob
          topLogprobs).distribution.length ∧
    (jsTrim chosenTokenRaw ≠ "" →
      ∀ c ∈ (getNextTokenDistributionRun chosenTokenRaw chosenLogprob
        topLogprobs).distribution, jsTrim c.token ≠ "") ∧
    (∀ c ∈ (getNextTokenDistributionRun chosenTokenRaw chosenLogprob
        topLogprobs).distribution, jsTrim c.token ≠ "" →
      ∀ item ∈ topLogprobs, jsTrim item.token = jsTrim c.token →
        item.logprob ≤ c.logprob) ∧
    (∀ c ∈ (getNextTokenDistributionRun chosenTokenRaw chosenLogprob
        topLogprobs).distribution, jsTrim c.token ≠ "" →
      (∃ item ∈ topLogprobs, jsTrim item.token = jsTrim c.token) →
      ∃ item ∈ topLogprobs, jsTrim item.token = jsTrim c.token ∧
        c.originalToken = item.token ∧ c.logprob = item.logprob) := by
  have hDmem : ∀ c ∈ assignRanks (dedupLoop (jsTrim chosenTokenRaw)
      (sortByProbDesc (toPreDedup 0 topLogprobs)) []),
      jsTrim c.token = c.token ∧ c.token ≠ "" ∧
        c.isChosen = (c.token == jsTrim chosenTokenRaw) := by
    intro c hc
    obtain ⟨c', hc', htok, hch, _, _⟩ := assignRanksFrom_mem 0 _ c hc
    have hp := dedup_pipeline_mem _ _ c' hc'
    exact ⟨htok ▸ hp.1, htok ▸ hp.2.1, by rw [htok, hch]; exact hp.2.2.1⟩
  by_cases hfind : ((assignRanks (dedupLoop (jsTrim chosenTokenRaw)
      (sortByProbDesc (toPreDedup 0 topLogprobs)) [])).find? (fun t => t.isChosen)).isSome
  · rw [getNextTokenDistributionRun_eq, if_pos hfind]
    dsimp only
    refine ⟨?_, ?_, ?_, ?_, ?_⟩
    · have hcon : (assignRanks (dedupLoop (jsTrim chosenTokenRaw)
          (sortByProbDesc (toPreDedup 0 topLogprobs)) [])).map (fun c => jsTrim c.token) =
          (assignRanks (dedupLoop (jsTrim chosenTokenRaw)
            (sortByProbDesc (toPreDedup 0 topLogprobs)) [])).map (fun c => c.token) :=
        List.map_congr_left (fun c hc => (hDmem c hc).1)
      rw [hcon, assignRanks_map_token _]
      exact dedupLoop_nodup _ _ _
    · rw [show (assignRanks (dedupLoop (jsTrim chosenTokenRaw)
          (sortByProbDesc (toPreDedup 0 topLogprobs)) [])).length =
          (dedupLoop (jsTrim chosenTokenRaw)
            (sortByProbDesc (toPreDedup 0 topLogprobs)) []).length from
        assignRanksFrom_length 0 _]
      exact assignRanksFrom_map_rank 0 _
    · intro _ c hc
      rw [(hDmem c hc).1]
      exact (hDmem c hc).2.1
    · intro c hc _hne item hitem htrim
      obtain ⟨c', hc', htok, _, _, hlp⟩ := assignRanksFrom_mem 0 _ c hc
      rw [(hDmem c hc).1, htok] at htrim
      rw [hlp]
      exact pipeline_max (jsTrim chosenTokenRaw) topLogprobs c' hc' item hitem htrim
    · intro c hc _hne _hex
      obtain ⟨c', hc', htok, _, hot, hlp⟩ := assignRanksFrom_mem 0 _ c hc
      obtain ⟨raw, hraw, h1, h2, h3⟩ :=
        pipeline_src (jsTrim chosenTokenRaw) topLogprobs c' hc'
      refine ⟨raw, hraw, ?_, ?_, ?_⟩
      · rw [(hDmem c hc).1, htok, h1]
      · rw [hot, h2]
      · rw [hlp, h3]
  · rw [getNextTokenDistributionRun_eq, if_neg hfind]
    dsimp only
    have hnotin : jsTrim chosenTokenRaw ∉ (assignRanks (dedupLoop (jsTrim chosenTokenRaw)
        (sortByProbDesc (toPreDedup 0 topLogprobs)) [])).map (fun c => c.token) := by
      intro hmem
      obtain ⟨c, hc, hct⟩ := List.mem_map.mp hmem
      have hch : c.isChosen = true := by
        rw [(hDmem c hc).2.2, hct]
        exact beq_self_eq_true _
      exact hfind (List.find?_isSome.mpr ⟨c, hc, hch⟩)
    have hsynth : ∀ item ∈ topLogprobs,
        jsTrim item.token = jsTrim chosenTokenRaw → jsTrim chosenTokenRaw ≠ "" →
        False := by
      intro item hitem htr2 hctne
      obtain ⟨c0, hc0, hc0t⟩ := pipeline_covers (jsTrim chosenTokenRaw) topLogprobs
        (jsTrim chosenTokenRaw) hctne ⟨item, hitem, htr2⟩
      have hmem : jsTrim chosenTokenRaw ∈ (dedupLoop (jsTrim chosenTokenRaw)
          (sortByProbDesc (toPreDedup 0 topLogprobs)) []).map (fun c => c.token) :=
        List.mem_map.mpr ⟨c0, hc0, hc0t⟩
      rw [← assignRanks_map_token _] at hmem
      exact hnotin hmem
    refine ⟨?_, ?_, ?_, ?_, ?_⟩
    · have hcon : (assignRanks
          ({ token := jsTrim chosenTokenRaw, originalToken := chosenTokenRaw,
             logprob := chosenLogprob.getD 0, rank := 1, isChosen := true } ::
            assignRanks (dedupLoop (jsTrim chosenTokenRaw)
              (sortByProbDesc (toPreDedup 0 topLogprobs)) []))).map
            (fun c => jsTrim c.token) =
          (assignRanks
            ({ token := jsTrim chosenTokenRaw, originalToken := chosenTokenRaw,
               logprob := chosenLogprob.getD 0, rank := 1, isChosen := true } ::
              assignRanks (dedupLoop (jsTrim chosenTokenRaw)
                (sortByProbDesc (toPreDedup 0 topLogprobs)) []))).map
            (fun c => c.token) := by
        refine List.map_congr_left (fun c hc => ?_)
        obtain ⟨c', hc', htok, _, _, _⟩ := assignRanksFrom_mem 0 _ c hc
        rcases List.mem_cons.mp hc' with h | h
        · rw [htok, h]
          exact jsTrim_idem chosenTokenRaw
        · rw [htok]
          exact (hDmem c' h).1
      rw [hcon, assignRanks_map_token _, List.map_cons, List.nodup_cons]
      exact ⟨hnotin, (by
        have h2 := dedupLoop_nodup (jsTrim chosenTokenRaw)
          (sortByProbDesc (toPreDedup 0 topLogprobs)) []
        rw [assignRanks_map_token _]
        exact h2)⟩
    · rw [show (assignRanks
          ({ token := jsTrim chosenTokenRaw, originalToken := chosenTokenRaw,
             logprob := chosenLogprob.getD 0, rank := 1, isChosen := true } ::
            assignRanks (dedupLoop (jsTrim chosenTokenRaw)
              (sortByProbDesc (toPreDedup 0 topLogprobs)) []))).length =
          ({ token := jsTrim chosenTokenRaw, originalToken := chosenTokenRaw,
             logprob := chosenLogprob.getD 0, rank := 1, isChosen := true } ::
            assignRanks (dedupLoop (jsTrim chosenTokenRaw)
              (sortByProbDesc (toPreDedup 0 topLogprobs)) [])).length from
        assignRanksFrom_length 0 _]
      exact assignRanksFrom_map_rank 0 _
    · intro hct c hc
      obtain ⟨c', hc', htok, _, _, _⟩ := assignRanksFrom_mem 0 _ c hc
      rcases List.mem_cons.mp hc' with h | h
      · rw [htok, h, jsTrim_idem chosenTokenRaw]
        exact hct
      · rw [htok, (hDmem c' h).1]
        exact (hDmem c' h).2.1
    · intro c hc hne item hitem htrim
      obtain ⟨c', hc', htok, _, _, hlp⟩ := assignRanksFrom_mem 0 _ c hc
      rcases List.mem_cons.mp hc' with h | h
      · exfalso
        have hcr : jsTrim c.token = jsTrim chosenTokenRaw := by
          rw [htok, h]
          exact jsTrim_idem chosenTokenRaw
        refine hsynth item hitem ?_ ?_
        · rw [htrim, hcr]
        · rw [← hcr]
          exact hne
      · obtain ⟨c'', hc'', htok2, _, _, hlp2⟩ := assignRanksFrom_mem 0 _ c' h
        have htr3 : jsTrim item.token = c''.token := by
          rw [htrim, htok, (hDmem c' h).1, htok2]
        rw [hlp, hlp2]
        exact pipeline_max (jsTrim chosenTokenRaw) topLogprobs c'' hc'' item hitem htr3
    · intro c hc hne hex
      obtain ⟨c', hc', htok, _, hot, hlp⟩ := assignRanksFrom_mem 0 _ c hc
      rcases List.mem_cons.mp hc' with h | h
      · exfalso
        have hcr : jsTrim c.token = jsTrim chosenTokenRaw := by
          rw [htok, h]
          exact jsTrim_idem chosenTokenRaw
        obtain ⟨item, hitem, htrim⟩ := hex
        refine hsynth item hitem ?_ ?_
        · rw [htrim, hcr]
        · rw [← hcr]
          exact hne
      · obtain ⟨c'', hc'', htok2, _, hot2, hlp2⟩ := assignRanksFrom_mem 0 _ c' h
        obtain ⟨raw, hraw, h1, h2, h3⟩ :=
          pipeline_src (jsTrim chosenTokenRaw) topLogprobs c'' hc''
        refine ⟨raw, hraw, ?_, ?_, ?_⟩
        · rw [htok, (hDmem c' h).1, htok2, h1]
        · rw [hot, hot2, h2]
        · rw [hlp, hlp2, h3]

/-- C3 witness: the spec's end-to-end scenario — chosen token " and" with
top-5 raw entries " and", "and", " but", " slowly", " quietly" — yields a
distribution with pairwise distinct trimmed texts, ranks exactly 1..N, no
empty trimmed text, and each kept candidate dominating (and originating
from) the input occurrences of its trimmed text. -/
theorem normalizer_dedup_and_ranks_witness :
    ((getNextTokenDistributionRun " and" (some (-1 / 10))
      [⟨" and", -1 / 10⟩, ⟨"and", -1 / 10⟩, ⟨" but", -2⟩, ⟨" slowly", -7 / 2⟩,
       ⟨" quietly", -5⟩]).distribution.map (fun c => jsTrim c.token)).Nodup ∧
    (getNextTokenDistributionRun " and" (some (-1 / 10))
      [⟨" and", -1 / 10⟩, ⟨"and", -1 / 10⟩, ⟨" but", -2⟩, ⟨" slowly", -7 / 2⟩,
       ⟨" quietly", -5⟩]).distribution.map (fun c => c.rank) =
      List.range' 1
        (getNextTokenDistributionRun " and" (some (-1 / 10))
          [⟨" and", -1 / 10⟩, ⟨"and", -1 / 10⟩, ⟨" but", -2⟩, ⟨" slowly", -7 / 2⟩,
           ⟨" quietly", -5⟩]).distribution.length ∧
    (∀ c ∈ (getNextTokenDistributionRun " and" (some (-1 / 10))
      [⟨" and", -1 / 10⟩, ⟨"and", -1 / 10⟩, ⟨" but", -2⟩, ⟨" slowly", -7 / 2⟩,
       ⟨" quietly", -5⟩]).distribution, jsTrim c.token ≠ "") ∧
    (∀ c ∈ (getNextTokenDistributionRun " and" (some (-1 / 10))
        [⟨" and", -1 / 10⟩, ⟨"and", -1 / 10⟩, ⟨" but", -2⟩, ⟨" slowly", -7 / 2⟩,
         ⟨" quietly", -5⟩]).distribution, jsTrim c.token ≠ "" →
      ∀ item ∈ [(⟨" and", -1 / 10⟩ : RawLogprobItem), ⟨"and", -1 / 10⟩, ⟨" but", -2⟩,
          ⟨" slowly", -7 / 2⟩, ⟨" quietly", -5⟩],
        jsTrim item.token = jsTrim c.token → item.logprob ≤ c.logprob) ∧
    (∀ c ∈ (getNextTokenDistributionRun " and" (some (-1 / 10))
        [⟨" and", -1 / 10⟩, ⟨"and", -1 / 10⟩, ⟨" but", -2⟩, ⟨" slowly", -7 / 2⟩,
         ⟨" quietly", -5⟩]).distribution, jsTrim c.token ≠ "" →
      (∃ item ∈ [(⟨" and", -1 / 10⟩ : RawLogprobItem), ⟨"and", -1 / 10⟩, ⟨" but", -2⟩,
          ⟨" slowly", -7 / 2⟩, ⟨" quietly", -5⟩], jsTrim item.token = jsTrim c.token) →
      ∃ item ∈ [(⟨" and", -1 / 10⟩ : RawLogprobItem), ⟨"and", -1 / 10⟩, ⟨" but", -2⟩,
          ⟨" slowly", -7 / 2⟩, ⟨" quietly", -5⟩], jsTrim item.token = jsTrim c.token ∧
        c.originalToken = item.token ∧ c.logprob = item.logprob) := by
  refine ⟨(normalizer_dedup_and_ranks " and" (some (-1 / 10)) _).1,
    (normalizer_dedup_and_ranks " and" (some (-1 / 10)) _).2.1,
    (normalizer_dedup_and_ranks " and" (some (-1 / 10)) _).2.2.1 (by decide),
    (normalizer_dedup_and_ranks " and" (some (-1 / 10)) _).2.2.2.1,
    (normalizer_dedup_and_ranks " and" (some (-1 / 10)) _).2.2.2.2⟩

/-- C3 counterexample: when the model's chosen token is the whitespace
string " " (which trims to empty) and the top-k list holds " and", the
synthesized chosen entry has empty trimmed text, so the output does
contain a candidate whose trimmed text is empty, contrary to the claim as
stated for every input. -/
theorem normalizer_empty_chosen_counterexample :
    (getNextTokenDistributionRun " " (some 0) [⟨" and", -1 / 10⟩]).distribution.map
      (fun c => jsTrim c.token) = ["", "and"] := by
  decide

/-! ## Candidate Selector lemmas -/

theorem strBeq_comm (a b : String) : (a == b) = (b == a) := by
  by_cases h : a = b
  · simp [h]
  · simp [h, Ne.symm h]

theorem nodup_concat_iff {α : Type} (l : List α) (x : α) :
    (l ++ [x]).Nodup ↔ l.Nodup ∧ x ∉ l := by
  simp [List.nodup_append]

theorem isTokenSelected_append (sel : List TokenCandidate) (t : TokenCandidate)
    (tok : String) :
    isTokenSelected (sel ++ [t]) tok =
      (isTokenSelected sel tok || (jsTrim t.token == jsTrim tok)) := by
  simp [isTokenSelected, List.any_append]

theorem isTokenSelected_eq_false_iff (sel : List TokenCandidate) (tok : String) :
    isTokenSelected sel tok = false ↔
      ∀ t ∈ sel, ¬jsTrim t.token = jsTrim tok := by
  simp [isTokenSelected, List.any_eq_false]

theorem pickRandom_mem {α : Type} (r : ℕ) (l : List α) (t : α)
    (h : pickRandom r l = some t) : t ∈ l := by
  cases l with
  | nil => simp [pickRandom] at h
  | cons x xs =>
    simp only [pickRandom, Option.some.injEq] at h
    rw [List.getD_eq_getElem?_getD] at h
    cases hg : (x :: xs)[r % (xs.length + 1)]? with
    | none =>
      rw [hg] at h
      simp at h
      rw [← h]
      exact List.mem_cons_self x xs
    | some y =>
      rw [hg] at h
      simp at h
      rw [← h]
      exact List.getElem?_mem hg

theorem filter_not_key_length (k0 : String) (L : List TokenCandidate)
    (hN : (L.map (fun t => jsTrim t.token)).Nodup) :
    L.length ≤ (L.filter (fun t => !(k0 == jsTrim t.token))).length + 1 := by
  have hsplit := List.length_eq_countP_add_countP
    (fun t => k0 == jsTrim t.token) L
  have hle : L.countP (fun t => k0 == jsTrim t.token) ≤ 1 := by
    have h1 : L.countP (fun t => k0 == jsTrim t.token) =
        L.countP (fun t => jsTrim t.token == k0) :=
      List.countP_congr (fun t _ => by rw [strBeq_comm k0 (jsTrim t.token)])
    have h2 : L.countP (fun t => jsTrim t.token == k0) =
        (L.map (fun t => jsTrim t.token)).count k0 := by
      rw [List.count_eq_countP, List.countP_map]
      rfl
    rw [h1, h2]
    exact List.nodup_iff_count_le_one.mp hN k0
  have hflt : L.countP (fun a => decide ¬(k0 == jsTrim a.token) = true) =
      (L.filter (fun t => !(k0 == jsTrim t.token))).length := by
    rw [← List.countP_eq_length_filter]
    refine List.countP_congr (fun t _ => ?_)
    by_cases h : (k0 == jsTrim t.token) = true <;> simp [h]
  rw [hflt] at hsplit
  omega

theorem mem_bandFilter (lo hi : ℕ) (vD sel : List TokenCandidate) (t : TokenCandidate)
    (h : t ∈ bandFilter lo hi vD sel) :
    t ∈ vD ∧ isTokenSelected sel t.token = false := by
  obtain ⟨hm, hp⟩ := List.mem_filter.mp h
  refine ⟨hm, ?_⟩
  simp only [Bool.and_eq_true, Bool.not_eq_true'] at hp
  exact hp.2

theorem selStep (vD sel : List TokenCandidate) (t : TokenCandidate)
    (hvD : (vD.map (fun x => jsTrim x.token)).Nodup)
    (hsel : (sel.map (fun x => jsTrim x.token)).Nodup)
    (hinv : 4 ≤ sel.length + (vD.filter (fun x => !isTokenSelected sel x.token)).length)
    (hts : isTokenSelected sel t.token = false) :
    ((sel ++ [t]).map (fun x => jsTrim x.token)).Nodup ∧
      4 ≤ (sel ++ [t]).length +
        (vD.filter (fun x => !isTokenSelected (sel ++ [t]) x.token)).length := by
  constructor
  · rw [List.map_append, List.map_singleton, nodup_concat_iff]
    refine ⟨hsel, ?_⟩
    intro hmem
    obtain ⟨s, hs, hkey⟩ := List.mem_map.mp hmem
    exact (isTokenSelected_eq_false_iff sel t.token).mp hts s hs hkey
  · have hfilters : vD.filter (fun x => !isTokenSelected (sel ++ [t]) x.token) =
        (vD.filter (fun x => !isTokenSelected sel x.token)).filter
          (fun x => !(jsTrim t.token == jsTrim x.token)) := by
      rw [List.filter_filter]
      refine List.filter_congr (fun x _ => ?_)
      rw [isTokenSelected_append]
      by_cases h1 : isTokenSelected sel x.token = true <;>
        by_cases h2 : (jsTrim t.token == jsTrim x.token) = true <;>
          simp [h1, h2]
    have hsub : ((vD.filter (fun x => !isTokenSelected sel x.token)).map
        (fun x => jsTrim x.token)).Nodup :=
      ((List.filter_sublist vD).map (fun x => jsTrim x.token)).nodup hvD
    have hlen := filter_not_key_length (jsTrim t.token)
      (vD.filter (fun x => !isTokenSelected sel x.token)) hsub
    rw [hfilters]
    simp only [List.length_append, List.length_singleton]
    omega

theorem fillLoop_spec (vD dist : List TokenCandidate) (tc : TokenCandidate)
    (hvD : (vD.map (fun x => jsTrim x.token)).Nodup) :
    ∀ (fuel : ℕ) (sel : List TokenCandidate),
      (sel.map (fun x => jsTrim x.token)).Nodup →
      tc ∈ sel →
      sel.length ≤ 4 →
      4 ≤ sel.length + (vD.filter (fun x => !isTokenSelected sel x.token)).length →
      4 - sel.length ≤ fuel →
      (fillLoop fuel sel vD dist).length = 4 ∧
        ((fillLoop fuel sel vD dist).map (fun x => jsTrim x.token)).Nodup ∧
        tc ∈ fillLoop fuel sel vD dist := by
  intro fuel
  induction fuel with
  | zero =>
    intro sel hN hm hle hinv hfuel
    have h4 : sel.length = 4 := by omega
    exact ⟨h4, hN, hm⟩
  | succ f ih =>
    intro sel hN hm hle hinv hfuel
    by_cases hlen : sel.length < 4
    · have hpos : 0 < (vD.filter (fun x => !isTokenSelected sel x.token)).length := by
        omega
      obtain ⟨r, rest, hr⟩ : ∃ r rest,
          vD.filter (fun x => !isTokenSelected sel x.token) = r :: rest := by
        cases hc : vD.filter (fun x => !isTokenSelected sel x.token) with
        | nil => rw [hc] at hpos; simp at hpos
        | cons a b => exact ⟨a, b, rfl⟩
      have hrmem : r ∈ vD.filter (fun x => !isTokenSelected sel x.token) := by
        rw [hr]; exact List.mem_cons_self r rest
      have hrsel : isTokenSelected sel r.token = false := by
        have h := List.of_mem_filter hrmem
        simpa using h
      have hstep := selStep vD sel r hvD hN hinv hrsel
      have hloop : fillLoop (f + 1) sel vD dist = fillLoop f (sel ++ [r]) vD dist := by
        rw [show fillLoop (f + 1) sel vD dist =
          (if sel.length < 4 then
            match vD.filter (fun t => !isTokenSelected sel t.token) with
            | r :: _ => fillLoop f (sel ++ [r]) vD dist
            | [] =>
              match fallbackFilter sel dist with
              | f' :: _ => fillLoop f (sel ++ [f']) vD dist
              | [] => sel
          else sel) from rfl]
        rw [if_pos hlen, hr]
      rw [hloop]
      refine ih (sel ++ [r]) hstep.1 (List.mem_append_left _ hm) ?_ hstep.2 ?_
      · simp only [List.length_append, List.length_singleton]
        omega
      · simp only [List.length_append, List.length_singleton]
        omega
    · have h4 : sel.length = 4 := by omega
      have hloop : fillLoop (f + 1) sel vD dist = sel := by
        rw [show fillLoop (f + 1) sel vD dist =
          (if sel.length < 4 then
            match vD.filter (fun t => !isTokenSelected sel t.token) with
            | r :: _ => fillLoop f (sel ++ [r]) vD dist
            | [] =>
              match fallbackFilter sel dist with
              | f' :: _ => fillLoop f (sel ++ [f']) vD dist
              | [] => sel
          else sel) from rfl]
        rw [if_neg hlen]
      rw [hloop]
      exact ⟨h4, hN, hm⟩

theorem bandPick_spec (vD sel : List TokenCandidate) (tc : TokenCandidate)
    (lo hi r : ℕ)
    (hvD : (vD.map (fun x => jsTrim x.token)).Nodup)
    (hN : (sel.map (fun x => jsTrim x.token)).Nodup)
    (hm : tc ∈ sel)
    (hinv : 4 ≤ sel.length + (vD.filter (fun x => !isTokenSelected sel x.token)).length)
    (sel' : List TokenCandidate)
    (hsel' : sel' = match pickRandom r (bandFilter lo hi vD sel) with
      | some t => sel ++ [t]
      | none => sel) :
    (sel'.map (fun x => jsTrim x.token)).Nodup ∧ tc ∈ sel' ∧
      4 ≤ sel'.length + (vD.filter (fun x => !isTokenSelected sel' x.token)).length ∧
      sel'.length ≤ sel.length + 1 := by
  cases hp : pickRandom r (bandFilter lo hi vD sel) with
  | none =>
    rw [hp] at hsel'
    subst hsel'
    exact ⟨hN, hm, hinv, by omega⟩
  | some t =>
    rw [hp] at hsel'
    have htmem := pickRandom_mem r (bandFilter lo hi vD sel) t hp
    obtain ⟨htvD, htsel⟩ := mem_bandFilter lo hi vD sel t htmem
    have hstep := selStep vD sel t hvD hN hinv htsel
    subst hsel'
    refine ⟨hstep.1, List.mem_append_left _ hm, hstep.2, ?_⟩
    simp

/-- C5: whenever the distribution is normalized (pairwise distinct trimmed
texts), the chosen candidate is found by exact token match, and at least 3
other candidates pass the word-validity filter, `selectTokenOptions`
returns exactly 4 candidates with pairwise distinct trimmed texts that
include the chosen candidate — for every outcome of the random band picks
and of the final shuffle. -/
theorem selectTokenOptions_four_distinct (rMid rLow rVeryLow : ℕ)
    (shuffleOracle : List ℕ) (correctToken : String)
    (distribution : List TokenCandidate) (tc : TokenCandidate)
    (hFind : distribution.find? (fun t => t.token == correctToken) = some tc)
    (hNodup : (distribution.map (fun t => jsTrim t.token)).Nodup)
    (hPool : 3 ≤ (distribution.filter
      (fun t => isValidWord t.token && !isTokenSelected [tc] t.token)).length) :
    (selectTokenOptions rMid rLow rVeryLow shuffleOracle correctToken
      distribution).length = 4 ∧
    ((selectTokenOptions rMid rLow rVeryLow shuffleOracle correctToken
      distribution).map (fun t => jsTrim t.token)).Nodup ∧
    tc ∈ selectTokenOptions rMid rLow rVeryLow shuffleOracle correctToken distribution ∧
    tc.token = correctToken := by
  have htc : tc.token = correctToken := by
    have h := List.find?_some hFind
    exact eq_of_beq h
  have hvD : ((distribution.filter
      (fun t => isValidWord t.token && !isTokenSelected [tc] t.token)).map
      (fun t => jsTrim t.token)).Nodup :=
    ((List.filter_sublist distribution).map (fun t => jsTrim t.token)).nodup hNodup
  have hfix : (distribution.filter
        (fun t => isValidWord t.token && !isTokenSelected [tc] t.token)).filter
        (fun x => !isTokenSelected [tc] x.token) =
      distribution.filter
        (fun t => isValidWord t.token && !isTokenSelected [tc] t.token) := by
    refine List.filter_eq_self.mpr (fun x hx => ?_)
    have h := (List.mem_filter.mp hx).2
    simp only [Bool.and_eq_true] at h
    exact h.2
  simp only [selectTokenOptions, hFind]
  rw [if_neg (not_lt.mpr hPool)]
  have h1 := bandPick_spec
    (distribution.filter (fun t => isValidWord t.token && !isTokenSelected [tc] t.token))
    [tc] tc midMin midMax rMid hvD (by simp) (List.mem_cons_self tc [])
    (by
      rw [hfix]
      simp only [List.length_cons, List.length_nil]
      omega) _ rfl
  have h2 := bandPick_spec
    (distribution.filter (fun t => isValidWord t.token && !isTokenSelected [tc] t.token))
    _ tc lowMin lowMax rLow hvD h1.1 h1.2.1 h1.2.2.1 _ rfl
  have h3 := bandPick_spec
    (distribution.filter (fun t => isValidWord t.token && !isTokenSelected [tc] t.token))
    _ tc veryLowMin veryLowMax rVeryLow hvD h2.1 h2.2.1 h2.2.2.1 _ rfl
  have hfill := fillLoop_spec
    (distribution.filter (fun t => isValidWord t.token && !isTokenSelected [tc] t.token))
    distribution tc hvD 4 _ h3.1 h3.2.1
    (by
      have ha := h1.2.2.2
      have hb := h2.2.2.2
      have hc := h3.2.2.2
      simp only [List.length_cons, List.length_nil] at ha
      omega)
    h3.2.2.1 (Nat.sub_le 4 _)
  refine ⟨?_, ?_, ?_, htc⟩
  · exact (shuffleLoop_perm _ _ _).length_eq.trans hfill.1
  · exact ((shuffleLoop_perm _ _ _).map
      (fun t : TokenCandidate => jsTrim t.token)).nodup_iff.mpr hfill.2.1
  · exact (shuffleLoop_perm _ _ _).mem_iff.mpr hfill.2.2

/-- C5 witness: a normalized four-candidate distribution ("and" chosen,
plus valid decoys "but", "the", "was") yields exactly 4 pairwise distinct
options including the chosen candidate, here evaluated at random draws 0
and an empty shuffle oracle. -/
theorem selectTokenOptions_four_distinct_witness :
    (selectTokenOptions 0 0 0 [] "and"
      [⟨"and", " and", -1, 1, true⟩, ⟨"but", " but", -2, 2, false⟩,
       ⟨"the", " the", -3, 3, false⟩, ⟨"was", " was", -4, 4, false⟩]).length = 4 ∧
    ((selectTokenOptions 0 0 0 [] "and"
      [⟨"and", " and", -1, 1, true⟩, ⟨"but", " but", -2, 2, false⟩,
       ⟨"the", " the", -3, 3, false⟩, ⟨"was", " was", -4, 4, false⟩]).map
      (fun t => jsTrim t.token)).Nodup ∧
    (⟨"and", " and", -1, 1, true⟩ : TokenCandidate) ∈ selectTokenOptions 0 0 0 [] "and"
      [⟨"and", " and", -1, 1, true⟩, ⟨"but", " but", -2, 2, false⟩,
       ⟨"the", " the", -3, 3, false⟩, ⟨"was", " was", -4, 4, false⟩] ∧
    (⟨"and", " and", -1, 1, true⟩ : TokenCandidate).token = "and" :=
  selectTokenOptions_four_distinct 0 0 0 [] "and"
    [⟨"and", " and", -1, 1, true⟩, ⟨"but", " but", -2, 2, false⟩,
     ⟨"the", " the", -3, 3, false⟩, ⟨"was", " was", -4, 4, false⟩]
    ⟨"and", " and", -1, 1, true⟩ (by decide) (by decide) (by decide)
